import Mathlib

/-!
Shallow embedding of the normalization & aggregation pipeline of
`dashboard.py` (functions `_standardize_columns`, `_aggregate_duplicates`,
`_extract_lat_lon`, `load_data`), together with theorems settling the
specification claims about it.

A table (pandas `DataFrame`) is modelled as a list of column names plus a
list of rows, each row being a list of `(column name, value)` cells.  A
well-formed table (`WF`) has each row labelled exactly by the column list,
mirroring the fact that a real `DataFrame` is always column-aligned.
A cell value is either missing (`NaN`/`pd.NA`), a number (modelled as `Rat`),
or a string.
-/

set_option maxRecDepth 8000

/- Core marks the rational operations irreducible, which blocks `decide` on
concrete tables; restore the default transparency for this development. -/
attribute [local semireducible] Rat.add Rat.mul Rat.sub Rat.inv Rat.ofScientific

namespace SteelDash

/-- A cell value: missing, numeric, or string. -/
inductive Value
  | na
  | num (q : Rat)
  | str (s : String)
deriving DecidableEq, Repr

def Value.isNa : Value → Bool
  | .na => true
  | _ => false

def Value.isNum : Value → Bool
  | .num _ => true
  | _ => false

def Value.isStr : Value → Bool
  | .str _ => true
  | _ => false

def Value.num? : Value → Option Rat
  | .num q => some q
  | _ => none

def Value.strv? : Value → Option String
  | .str s => some s
  | _ => none

/-! String helpers (Python `str.strip`, `str.lower`, `in`, `startswith`) -/

/-- Python `str.strip()` on a character list: remove whitespace from both ends. -/
def stripChars (l : List Char) : List Char :=
  ((l.dropWhile Char.isWhitespace).reverse.dropWhile Char.isWhitespace).reverse

/-- Python `str.strip()`. -/
def pyStrip (s : String) : String :=
  ⟨stripChars s.data⟩

/-- Executable substring test (Python `needle in hay`). -/
def isInfixB (needle hay : List Char) : Bool :=
  (List.range (hay.length + 1)).any (fun i => needle.isPrefixOf (hay.drop i))

/-- Python `"capacity" in c.lower()`. -/
def hasCapacity (c : String) : Bool :=
  isInfixB "capacity".data (c.data.map Char.toLower)

/-- Python `c == "" or c.lower().startswith("unnamed")` (dashboard.py line 20). -/
def isUnnamed (c : String) : Bool :=
  c == "" || "unnamed".data.isPrefixOf (c.data.map Char.toLower)

/-- Python `s.split(sep)` for a one-character separator. -/
def splitOnChar (sep : Char) : List Char → List (List Char)
  | [] => [[]]
  | c :: t =>
    if c = sep then [] :: splitOnChar sep t
    else
      match splitOnChar sep t with
      | [] => [[c]]
      | h :: r => (c :: h) :: r

/-- Numeric value of a digit list. -/
def digitsVal (l : List Char) : Nat :=
  l.foldl (fun a c => a * 10 + (c.toNat - '0'.toNat)) 0

/-- Parse an unsigned decimal literal `digits[.digits]` (with at least one
digit overall), the fragment of Python `float()` the dashboard relies on. -/
def parseUnsigned (l : List Char) : Option Rat :=
  match splitOnChar '.' l with
  | [ip] =>
    if ip ≠ [] ∧ ip.all Char.isDigit then some (mkRat (digitsVal ip) 1) else none
  | [ip, fp] =>
    if (ip ++ fp) ≠ [] ∧ (ip ++ fp).all Char.isDigit then
      some (mkRat (digitsVal (ip ++ fp)) (Nat.pow 10 fp.length))
    else none
  | _ => none

/-- Python `float(s)` on decimal literals with an optional sign;
`none` models a raised `ValueError`. -/
def parseFloat? (l : List Char) : Option Rat :=
  match l with
  | '+' :: t => parseUnsigned t
  | '-' :: t => (parseUnsigned t).map (fun q => -q)
  | _ => parseUnsigned l

/-- `pd.to_numeric(value, errors="coerce")` on one cell: numbers pass
through, parseable strings become numbers, everything else becomes missing. -/
def toNumeric (v : Value) : Value :=
  match v with
  | .na => .na
  | .num q => .num q
  | .str s =>
    match parseFloat? (stripChars s.data) with
    | some q => .num q
    | none => .na

/-! The coordinate extractor (dashboard.py lines 35-45) -/

/-- `_extract_lat_lon` from dashboard.py: missing → two missing; a string
with a comma is split, and if there are exactly two parts both are stripped
and parsed as floats (any failure gives two missing); anything else gives
two missing. -/
def extract_lat_lon (v : Value) : Value × Value :=
  match v with
  | .na => (.na, .na)
  | .str s =>
    if s.data.contains ',' then
      match splitOnChar ',' s.data with
      | [a, b] =>
        match parseFloat? (stripChars a), parseFloat? (stripChars b) with
        | some x, some y => (.num x, .num y)
        | _, _ => (.na, .na)
      | _ => (.na, .na)
    else (.na, .na)
  | .num _ => (.na, .na)

/-! Tables -/

/-- One table row: a list of `(column name, value)` cells. -/
abbrev Row := List (String × Value)

/-- A table: column names in order, plus rows. -/
structure DF where
  cols : List String
  rows : List Row
deriving DecidableEq, Repr

/-- Well-formedness: every row is labelled exactly by the column list. -/
def WF (df : DF) : Prop :=
  ∀ r ∈ df.rows, r.map Prod.fst = df.cols

instance (df : DF) : Decidable (WF df) := by
  unfold WF; infer_instance

/-- `df[c][row]`: the value of the first cell labelled `c` (missing if none). -/
def getCell (r : Row) (c : String) : Value :=
  match r.find? (fun p => decide (p.1 = c)) with
  | some p => p.2
  | none => .na

/-- The column `c` of the table, as a list of values. -/
def getColVals (df : DF) (c : String) : List Value :=
  df.rows.map (fun r => getCell r c)

/-- `df[name] = vals`: overwrite an existing column in place, or append a
new one at the end (pandas column assignment). -/
def setCol (df : DF) (name : String) (vals : List Value) : DF :=
  if name ∈ df.cols then
    ⟨df.cols,
     List.zipWith
       (fun r v => r.map (fun p => if p.1 = name then (p.1, v) else p))
       df.rows vals⟩
  else
    ⟨df.cols ++ [name],
     List.zipWith (fun r v => r ++ [(name, v)]) df.rows vals⟩

/-- `df.drop(columns=[n])`: remove every column named `n`. -/
def dropByName (df : DF) (n : String) : DF :=
  ⟨df.cols.filter (fun c => decide (c ≠ n)),
   df.rows.map (fun r => r.filter (fun p => decide (p.1 ≠ n)))⟩

/-- `df.rename(columns={old: new})`. -/
def renameCol (df : DF) (old new : String) : DF :=
  ⟨df.cols.map (fun c => if c = old then new else c),
   df.rows.map (fun r => r.map (fun p => if p.1 = old then (new, p.2) else p))⟩

/-! `_standardize_columns` (dashboard.py lines 14-62) -/

/-- Line 16: `df.columns = [c.strip() for c in df.columns]`. -/
def stripNames (df : DF) : DF :=
  ⟨df.cols.map pyStrip,
   df.rows.map (fun r => r.map (fun p => (pyStrip p.1, p.2)))⟩

/-- Lines 19-22: drop the leading column when its name is empty or starts
with "unnamed" (case-insensitively). -/
def dropUnnamedFirst (df : DF) : DF :=
  match df.cols with
  | [] => df
  | c :: _ => if isUnnamed c then dropByName df c else df

/-- Lines 25-26: rename `Latitude` to `latitude` unless `latitude` exists. -/
def renameLat (df : DF) : DF :=
  if "Latitude" ∈ df.cols ∧ "latitude" ∉ df.cols then
    renameCol df "Latitude" "latitude"
  else df

/-- Lines 27-28: rename `Longitude` to `longitude` unless `longitude` exists. -/
def renameLon (df : DF) : DF :=
  if "Longitude" ∈ df.cols ∧ "longitude" ∉ df.cols then
    renameCol df "Longitude" "longitude"
  else df

/-- Line 47: `latlon = df["Coordinates"].apply(_extract_lat_lon)`. -/
def coordVals (df : DF) : List (Value × Value) :=
  df.rows.map (fun r => extract_lat_lon (getCell r "Coordinates"))

/-- Lines 48-49: populate `latitude` when it does not already exist.
The coordinate pairs are read from `df0`, the table the guard inspected. -/
def addLatStep (df0 df : DF) : DF :=
  if "latitude" ∉ df.cols then setCol df "latitude" ((coordVals df0).map Prod.fst)
  else df

/-- Lines 50-51: populate `longitude` when it does not already exist. -/
def addLonStep (df0 df : DF) : DF :=
  if "longitude" ∉ df.cols then setCol df "longitude" ((coordVals df0).map Prod.snd)
  else df

/-- Lines 31-51: when a `Coordinates` column exists and `latitude` or
`longitude` is missing, parse every coordinate value and populate whichever
of the two columns does not already exist. -/
def addCoords (df : DF) : DF :=
  if "Coordinates" ∈ df.cols ∧ ("latitude" ∉ df.cols ∨ "longitude" ∉ df.cols) then
    addLonStep df (addLatStep df df)
  else df

/-- The coerced capacity cells of one row: the cells whose column name
contains "capacity" (case-insensitively), each passed through
`pd.to_numeric(errors="coerce")`. -/
def capCells (r : Row) : List Value :=
  (r.filter (fun p => hasCapacity p.1)).map (fun p => toNumeric p.2)

/-- `sum(axis=1, min_count=1)` over coerced cells: missing when every cell
is missing, otherwise the numeric sum. -/
def sumMin1 (vs : List Value) : Value :=
  if vs.all Value.isNa then .na
  else .num ((vs.filterMap Value.num?).sum)

/-- Lines 53-60: when any capacity-like column exists, build
`Total capacity (ttpa)` as the row-wise min-count-1 sum of the coerced
capacity columns. -/
def addTotalCapacity (df : DF) : DF :=
  if df.cols.any hasCapacity then
    setCol df "Total capacity (ttpa)" (df.rows.map (fun r => sumMin1 (capCells r)))
  else df

/-- The pipeline state after name cleaning and the unnamed-column drop. -/
def stage1 (df : DF) : DF :=
  dropUnnamedFirst (stripNames df)

/-- The pipeline state after the latitude/longitude renames. -/
def stage2 (df : DF) : DF :=
  renameLon (renameLat (stage1 df))

/-- The pipeline state after the coordinate derivation. -/
def stage3 (df : DF) : DF :=
  addCoords (stage2 df)

/-- `_standardize_columns` from dashboard.py (lines 14-62). -/
def standardize_columns (df : DF) : DF :=
  addTotalCapacity (stage3 df)

/-! `_aggregate_duplicates` (dashboard.py lines 64-113) -/

/-- The composite fallback key columns (dashboard.py lines 69-78). -/
def fallbackKeyCols : List String :=
  ["Plant name (English)", "Owner", "latitude", "longitude", "Country/Area"]

/-- Grouping-key selection (lines 65-79): `Plant ID` when present, otherwise
the existing fallback columns, otherwise the first column. -/
def chooseKey (df : DF) : List String :=
  if "Plant ID" ∈ df.cols then ["Plant ID"]
  else if fallbackKeyCols.filter (fun c => decide (c ∈ df.cols)) = [] then
    [df.cols.headD ""]
  else fallbackKeyCols.filter (fun c => decide (c ∈ df.cols))

/-- The key tuple of a row. -/
def keyOf (key : List String) (r : Row) : List Value :=
  key.map (fun c => getCell r c)

/-- The descriptive columns forced to "first" aggregation
(dashboard.py lines 98-109). -/
def firstTextCols : List String :=
  ["Plant name (English)", "Owner", "Location address", "Country/Area",
   "Region", "Coordinates", "Announced date", "Start date",
   "latitude", "longitude"]

/-- How a non-key column is aggregated. -/
inductive AggKind
  | first
  | sum
  | max
deriving DecidableEq, Repr

/-- The aggregation assigned to a non-key column by the `agg` dictionary of
dashboard.py lines 91-111: the text columns are (re)set to "first" last, so
they win; `Workforce size` takes "max"; every capacity-like column
(including the derived total) takes "sum"; everything else keeps "first".
The three groups of names are pairwise disjoint, so the dictionary-overwrite
order collapses to this case split. -/
def aggKind (c : String) : AggKind :=
  if c ∈ firstTextCols then .first
  else if c = "Workforce size" then .max
  else if hasCapacity c then .sum
  else .first

/-- pandas `GroupBy.first`: the first non-missing value, missing if none. -/
def aggFirst (vs : List Value) : Value :=
  ((vs.filter (fun v => !v.isNa)).headD .na)

/-- pandas `GroupBy.sum` with its default `min_count=0`: missing values are
skipped and an all-missing (or empty) group sums to `0`; a pure string
column concatenates. -/
def aggSum (vs : List Value) : Value :=
  if (vs.filter (fun v => !v.isNa)).all Value.isNum then
    .num (((vs.filter (fun v => !v.isNa)).filterMap Value.num?).sum)
  else if (vs.filter (fun v => !v.isNa)).all Value.isStr then
    .str (String.join ((vs.filter (fun v => !v.isNa)).filterMap Value.strv?))
  else .na

/-- pandas `GroupBy.max`: missing values are skipped; all-missing is missing. -/
def aggMax (vs : List Value) : Value :=
  match (vs.filter (fun v => !v.isNa)).filterMap Value.num? with
  | [] => .na
  | q :: qs =>
    if (vs.filter (fun v => !v.isNa)).all Value.isNum then .num (qs.foldl max q)
    else .na

def applyAgg : AggKind → List Value → Value
  | .first, vs => aggFirst vs
  | .sum, vs => aggSum vs
  | .max, vs => aggMax vs

/-! Ordering of group keys: pandas `groupby(..., sort=True)` emits groups in
ascending key order, missing keys last, tuples lexicographically. -/

/-- Ordering of character lists (string comparison). -/
def clLe : List Char → List Char → Bool
  | [], _ => true
  | _ :: _, [] => false
  | a :: as, b :: bs =>
    if a < b then true else if b < a then false else clLe as bs

/-- Total order on cell values used to sort group keys: numbers ascend,
then strings, with missing values last (as pandas places `NaN` keys last). -/
def vle : Value → Value → Bool
  | .num a, .num b => decide (a ≤ b)
  | .num _, .str _ => true
  | .num _, .na => true
  | .str _, .num _ => false
  | .str a, .str b => clLe a.data b.data
  | .str _, .na => true
  | .na, .na => true
  | .na, .num _ => false
  | .na, .str _ => false

/-- Lexicographic order on key tuples. -/
def kle : List Value → List Value → Bool
  | [], _ => true
  | _ :: _, [] => false
  | a :: as, b :: bs => if a = b then kle as bs else vle a b

/-- The group-key order as a relation. -/
def KeyLE (a b : List Value) : Prop := kle a b = true

instance : DecidableRel KeyLE := fun a b =>
  inferInstanceAs (Decidable (kle a b = true))

/-- The key tuples of all input rows, in input order. -/
def rowKeys (df : DF) : List (List Value) :=
  df.rows.map (keyOf (chooseKey df))

/-- The distinct group keys in output order (ascending). -/
def outKeys (df : DF) : List (List Value) :=
  List.insertionSort KeyLE (rowKeys df).dedup

/-- The rows of the group with key `k`, in input order. -/
def groupRowsOf (df : DF) (k : List Value) : List Row :=
  df.rows.filter (fun r => decide (keyOf (chooseKey df) r = k))

/-- The values of column `c` over the group with key `k`, in input order. -/
def groupVals (df : DF) (c : String) (k : List Value) : List Value :=
  (groupRowsOf df k).map (fun r => getCell r c)

/-- `_aggregate_duplicates` from dashboard.py (lines 64-113):
`df.groupby(key, dropna=False, as_index=False).agg(agg)` — one output row
per distinct key tuple (missing keys kept, keys sorted ascending), key
columns first, then every other column aggregated per `aggKind`. -/
def aggregate_duplicates (df : DF) : DF :=
  ⟨chooseKey df ++ df.cols.filter (fun c => decide (c ∉ chooseKey df)),
   (outKeys df).map (fun k =>
     (chooseKey df).zip k ++
       (df.cols.filter (fun c => decide (c ∉ chooseKey df))).map
         (fun c => (c, applyAgg (aggKind c) (groupVals df c k))))⟩

/-! `load_data` (dashboard.py lines 12-124) -/

/-- `load_data`: the input file is modelled as `none` (absent) or
`some df` (present, parsed).  An absent file raises (lines 116-119) with a
message naming the file; otherwise the table is standardized and
aggregated. -/
def load_data (input : Option DF) : Except String DF :=
  match input with
  | none =>
    Except.error "plants_processed.csv not found. Please place the file next to the app."
  | some df => Except.ok (aggregate_duplicates (standardize_columns df))

/-- First-column-unnamed test, used to state when the drop step fires. -/
def isUnnamedFirst (df : DF) : Bool :=
  match df.cols with
  | [] => false
  | c :: _ => isUnnamed c

/-! Spec-side definitions (modelled from the specification text) -/

/-- The coordinate-extraction mapping exactly as the specification words it
("if it is a string containing exactly one comma, split on the comma, trim
both parts, and attempt to parse each as a floating-point number; on any
parse failure or wrong part count, emit two missing values"), for
comparison with the code-level `extract_lat_lon`. -/
def specExtractLatLon (v : Value) : Value × Value :=
  match v with
  | .na => (.na, .na)
  | .str s =>
    if s.data.count ',' = 1 then
      match splitOnChar ',' s.data with
      | [a, b] =>
        match parseFloat? (stripChars a), parseFloat? (stripChars b) with
        | some x, some y => (.num x, .num y)
        | _, _ => (.na, .na)
      | _ => (.na, .na)
    else (.na, .na)
  | .num _ => (.na, .na)

/-! Basic list lemmas -/

theorem map_self {α : Type} {l : List α} {f : α → α} (h : ∀ a ∈ l, f a = a) :
    l.map f = l := by
  induction l with
  | nil => rfl
  | cons a t ih =>
    simp only [List.map_cons]
    rw [h a (List.mem_cons_self a t), ih (fun x hx => h x (List.mem_cons_of_mem a hx))]

theorem zipWith_map_right_self {α β γ : Type} (f : α → β → γ) (g : α → β) :
    ∀ l : List α, List.zipWith f l (l.map g) = l.map (fun a => f a (g a))
  | [] => rfl
  | a :: t => by
    simp only [List.map_cons, List.zipWith_cons_cons, zipWith_map_right_self f g t]

theorem find?_map_eq {α β : Type} (f : α → β) (p : β → Bool) :
    ∀ l : List α, List.find? p (l.map f) = (List.find? (fun a => p (f a)) l).map f
  | [] => rfl
  | a :: t => by
    by_cases h : p (f a)
    · rw [List.map_cons, List.find?_cons_of_pos _ h,
        @List.find?_cons_of_pos _ (fun x => p (f x)) a t h]
      rfl
    · rw [List.map_cons, List.find?_cons_of_neg _ h,
        @List.find?_cons_of_neg _ (fun x => p (f x)) a t h]
      exact find?_map_eq f p t

theorem dropWhile_dropWhile {α : Type} (p : α → Bool) (l : List α) :
    (l.dropWhile p).dropWhile p = l.dropWhile p := by
  induction l with
  | nil => rfl
  | cons a t ih =>
    by_cases h : p a
    · simp [List.dropWhile_cons, h, ih]
    · simp [List.dropWhile_cons, h]

theorem head_dropWhile_false {α : Type} (p : α → Bool) :
    ∀ (l : List α) (x : α) (xs : List α), l.dropWhile p = x :: xs → p x = false
  | [], x, xs, h => by simp at h
  | a :: t, x, xs, h => by
    by_cases hp : p a
    · rw [List.dropWhile_cons, if_pos hp] at h
      exact head_dropWhile_false p t x xs h
    · rw [List.dropWhile_cons, if_neg hp] at h
      obtain ⟨rfl, -⟩ := List.cons.inj h
      exact Bool.of_not_eq_true hp

/-! Idempotence of stripping -/

theorem stripChars_head_not_ws (l : List Char) (x : Char) (xs : List Char)
    (h : stripChars l = x :: xs) : Char.isWhitespace x = false := by
  have hsplit :
      l.dropWhile Char.isWhitespace
        = stripChars l
          ++ ((l.dropWhile Char.isWhitespace).reverse.takeWhile Char.isWhitespace).reverse := by
    conv_lhs =>
      rw [← List.reverse_reverse (l.dropWhile Char.isWhitespace),
        ← List.takeWhile_append_dropWhile Char.isWhitespace
          (l.dropWhile Char.isWhitespace).reverse,
        List.reverse_append]
    rfl
  rw [h] at hsplit
  exact head_dropWhile_false Char.isWhitespace l x _ (by simpa using hsplit)

theorem dropWhile_stripChars (l : List Char) :
    (stripChars l).dropWhile Char.isWhitespace = stripChars l := by
  cases h : stripChars l with
  | nil => rfl
  | cons x xs =>
    rw [List.dropWhile_cons, if_neg (by simp [stripChars_head_not_ws l x xs h])]

theorem stripChars_idem (l : List Char) :
    stripChars (stripChars l) = stripChars l := by
  conv_lhs => rw [stripChars]
  rw [dropWhile_stripChars]
  unfold stripChars
  rw [List.reverse_reverse, dropWhile_dropWhile]

theorem pyStrip_idem (s : String) : pyStrip (pyStrip s) = pyStrip s := by
  unfold pyStrip
  exact congrArg String.mk (stripChars_idem s.data)

/-! The group-key order is a decidable linear order -/

theorem clLe_total : ∀ a b : List Char, clLe a b = true ∨ clLe b a = true
  | [], _ => Or.inl rfl
  | _ :: _, [] => Or.inr rfl
  | x :: xs, y :: ys => by
    rcases lt_trichotomy x y with h | h | h
    · left; simp [clLe, h]
    · subst h
      simpa [clLe, lt_irrefl] using clLe_total xs ys
    · right; simp [clLe, h]

theorem clLe_antisymm : ∀ {a b : List Char},
    clLe a b = true → clLe b a = true → a = b
  | [], [], _, _ => rfl
  | [], _ :: _, _, h2 => by simp [clLe] at h2
  | _ :: _, [], h1, _ => by simp [clLe] at h1
  | x :: xs, y :: ys, h1, h2 => by
    rcases lt_trichotomy x y with h | h | h
    · rw [clLe, if_neg (by simp [lt_asymm h]), if_pos h] at h2
      exact absurd h2 (by simp)
    · subst h
      rw [clLe, if_neg (by simp [lt_irrefl]), if_neg (by simp [lt_irrefl])] at h1 h2
      exact congrArg (x :: ·) (clLe_antisymm h1 h2)
    · rw [clLe, if_neg (by simp [lt_asymm h]), if_pos h] at h1
      exact absurd h1 (by simp)

theorem clLe_trans : ∀ {a b c : List Char},
    clLe a b = true → clLe b c = true → clLe a c = true
  | [], _, _, _, _ => rfl
  | _ :: _, [], _, h1, _ => by simp [clLe] at h1
  | _ :: _, _ :: _, [], _, h2 => by simp [clLe] at h2
  | x :: xs, y :: ys, z :: zs, h1, h2 => by
    rcases lt_trichotomy x y with hxy | hxy | hxy
    · rcases lt_trichotomy y z with hyz | hyz | hyz
      · simp [clLe, lt_trans hxy hyz]
      · subst hyz; simp [clLe, hxy]
      · rw [clLe, if_neg (by simp [lt_asymm hyz]), if_pos hyz] at h2
        exact absurd h2 (by simp)
    · subst hxy
      rcases lt_trichotomy x z with hyz | hyz | hyz
      · simp [clLe, hyz]
      · subst hyz
        rw [clLe, if_neg (by simp [lt_irrefl]), if_neg (by simp [lt_irrefl])] at h1 h2
        simpa [clLe, lt_irrefl] using clLe_trans h1 h2
      · rw [clLe, if_neg (by simp [lt_asymm hyz]), if_pos hyz] at h2
        exact absurd h2 (by simp)
    · rw [clLe, if_neg (by simp [lt_asymm hxy]), if_pos hxy] at h1
      exact absurd h1 (by simp)

theorem vle_total (a b : Value) : vle a b = true ∨ vle b a = true := by
  cases a <;> cases b <;> simp [vle]
  · exact le_total _ _
  · exact clLe_total _ _

theorem vle_antisymm : ∀ {a b : Value}, vle a b = true → vle b a = true → a = b := by
  intro a b h1 h2
  cases a <;> cases b <;> simp [vle] at h1 h2 ⊢
  · exact le_antisymm h1 h2
  · exact String.ext (clLe_antisymm h1 h2)

theorem vle_trans : ∀ {a b c : Value},
    vle a b = true → vle b c = true → vle a c = true := by
  intro a b c h1 h2
  cases a <;> cases b <;> cases c <;> simp [vle] at h1 h2 ⊢
  · exact le_trans h1 h2
  · exact clLe_trans h1 h2

theorem kle_refl : ∀ a : List Value, kle a a = true
  | [] => rfl
  | x :: xs => by simp [kle, kle_refl xs]

theorem kle_total : ∀ a b : List Value, kle a b = true ∨ kle b a = true
  | [], _ => Or.inl rfl
  | _ :: _, [] => Or.inr rfl
  | x :: xs, y :: ys => by
    by_cases h : x = y
    · subst h
      simpa [kle] using kle_total xs ys
    · simpa [kle, h, Ne.symm h] using vle_total x y

theorem kle_antisymm : ∀ {a b : List Value},
    kle a b = true → kle b a = true → a = b
  | [], [], _, _ => rfl
  | [], _ :: _, _, h2 => by simp [kle] at h2
  | _ :: _, [], h1, _ => by simp [kle] at h1
  | x :: xs, y :: ys, h1, h2 => by
    by_cases h : x = y
    · subst h
      simp only [kle, if_pos rfl] at h1 h2
      exact congrArg (x :: ·) (kle_antisymm h1 h2)
    · rw [kle, if_neg h] at h1
      rw [kle, if_neg (Ne.symm h)] at h2
      exact absurd (vle_antisymm h1 h2) h

theorem kle_trans : ∀ {a b c : List Value},
    kle a b = true → kle b c = true → kle a c = true
  | [], _, _, _, _ => rfl
  | _ :: _, [], _, h1, _ => by simp [kle] at h1
  | _ :: _, _ :: _, [], _, h2 => by simp [kle] at h2
  | x :: xs, y :: ys, z :: zs, h1, h2 => by
    by_cases hxy : x = y
    · subst hxy
      by_cases hxz : x = z
      · subst hxz
        rw [kle, if_pos rfl] at h1 h2 ⊢
        exact kle_trans h1 h2
      · rw [kle, if_pos rfl] at h1
        rw [kle, if_neg hxz] at h2 ⊢
        exact h2
    · by_cases hyz : y = z
      · subst hyz
        rw [kle, if_neg hxy] at h1 ⊢
        exact h1
      · rw [kle, if_neg hxy] at h1
        rw [kle, if_neg hyz] at h2
        by_cases hxz : x = z
        · subst hxz
          exact absurd (vle_antisymm h1 h2) hxy
        · rw [kle, if_neg hxz]
          exact vle_trans h1 h2

instance : IsTotal (List Value) KeyLE := ⟨fun a b => kle_total a b⟩

instance : IsTrans (List Value) KeyLE := ⟨fun _ _ _ => kle_trans⟩

instance : IsAntisymm (List Value) KeyLE := ⟨fun _ _ => kle_antisymm⟩

/-! Cell-access lemmas -/

theorem zipWith_map_map {α β γ δ : Type} (h : β → γ → δ) (g : α → β) (f : α → γ) :
    ∀ l : List α, List.zipWith h (l.map g) (l.map f) = l.map (fun a => h (g a) (f a))
  | [] => rfl
  | a :: t => by
    simp only [List.map_cons, List.zipWith_cons_cons, zipWith_map_map h g f t]

theorem zipWith_map_right_self' {α β γ : Type} (f : α → β → γ) (g : α → β) :
    ∀ l : List α, List.zipWith f l (l.map g) = l.map (fun a => f a (g a))
  | [] => rfl
  | a :: t => by
    simp only [List.map_cons, List.zipWith_cons_cons, zipWith_map_right_self' f g t]

theorem getCell_append_single_ne (r : Row) (x : String × Value) (c : String)
    (h : x.1 ≠ c) : getCell (r ++ [x]) c = getCell r c := by
  unfold getCell
  rw [List.find?_append]
  have hx : List.find? (fun p => decide (p.1 = c)) [x] = none := by
    simp [List.find?_cons, h]
  rw [hx]
  cases r.find? (fun p => decide (p.1 = c)) <;> rfl

theorem getCell_append_single_self (r : Row) (c : String) (v : Value)
    (h : ∀ p ∈ r, p.1 ≠ c) : getCell (r ++ [(c, v)]) c = v := by
  unfold getCell
  rw [List.find?_append]
  have hn : r.find? (fun p => decide (p.1 = c)) = none :=
    List.find?_eq_none.mpr (fun p hp => by simp [h p hp])
  rw [hn]
  simp [List.find?_cons]

/-- Replacing the values of the cells labelled `n` does not change the value
read at a different label. -/
theorem getCell_map_replace_ne (r : Row) (n : String) (v : Value) (c : String)
    (h : c ≠ n) :
    getCell (r.map (fun p => if p.1 = n then (p.1, v) else p)) c = getCell r c := by
  unfold getCell
  rw [find?_map_eq]
  have hpred :
      (fun p : String × Value =>
          decide (((fun p : String × Value => if p.1 = n then (p.1, v) else p) p).1 = c))
        = fun p : String × Value => decide (p.1 = c) := by
    funext p
    by_cases hp : p.1 = n <;> simp [hp]
  rw [hpred]
  cases hf : r.find? (fun p => decide (p.1 = c)) with
  | none => rfl
  | some p =>
    have hp : p.1 = c := by simpa using List.find?_some hf
    have hpn : p.1 ≠ n := by rw [hp]; exact h
    simp [hpn]

/-- Reading the replaced label gives the new value, provided a cell with
that label exists. -/
theorem getCell_map_replace_self (r : Row) (n : String) (v : Value)
    (h : n ∈ r.map Prod.fst) :
    getCell (r.map (fun p => if p.1 = n then (p.1, v) else p)) n = v := by
  unfold getCell
  rw [find?_map_eq]
  have hpred :
      (fun p : String × Value =>
          decide (((fun p : String × Value => if p.1 = n then (p.1, v) else p) p).1 = n))
        = fun p : String × Value => decide (p.1 = n) := by
    funext p
    by_cases hp : p.1 = n <;> simp [hp]
  rw [hpred]
  cases hf : r.find? (fun p => decide (p.1 = n)) with
  | none =>
    obtain ⟨p, hp, hp1⟩ := List.mem_map.mp h
    exact absurd (List.find?_eq_none.mp hf p hp) (by simp [hp1])
  | some q =>
    have hq : q.1 = n := by simpa using List.find?_some hf
    simp [hq]

/-- Renaming `old` to `new` does not change the value read at a label that
is neither of the two. -/
theorem getCell_map_rename_ne (r : Row) (old new c : String)
    (h1 : c ≠ old) (h2 : c ≠ new) :
    getCell (r.map (fun p => if p.1 = old then (new, p.2) else p)) c = getCell r c := by
  unfold getCell
  rw [find?_map_eq]
  have hpred :
      (fun p : String × Value =>
          decide (((fun p : String × Value => if p.1 = old then (new, p.2) else p) p).1 = c))
        = fun p : String × Value => decide (p.1 = c) := by
    funext p
    by_cases hp : p.1 = old
    · simp [hp, Ne.symm h1, Ne.symm h2]
    · simp [hp]
  rw [hpred]
  cases hf : r.find? (fun p => decide (p.1 = c)) with
  | none => rfl
  | some p =>
    have hp : p.1 ≠ old := by
      rw [show p.1 = c from by simpa using List.find?_some hf]
      exact h1
    simp [hp]

/-! Shapes of the column list and rows of each pipeline step -/

theorem setCol_cols (df : DF) (n : String) (vs : List Value) :
    (setCol df n vs).cols = if n ∈ df.cols then df.cols else df.cols ++ [n] := by
  unfold setCol
  split <;> rfl

theorem setCol_map_rows_of_mem (df : DF) (n : String) (f : Row → Value)
    (h : n ∈ df.cols) :
    (setCol df n (df.rows.map f)).rows
      = df.rows.map (fun r => r.map (fun p => if p.1 = n then (p.1, f r) else p)) := by
  unfold setCol
  rw [if_pos h]
  exact zipWith_map_right_self' _ f df.rows

theorem setCol_map_rows_of_not_mem (df : DF) (n : String) (f : Row → Value)
    (h : n ∉ df.cols) :
    (setCol df n (df.rows.map f)).rows
      = df.rows.map (fun r => r ++ [(n, f r)]) := by
  unfold setCol
  rw [if_neg h]
  exact zipWith_map_right_self' _ f df.rows

/-! Well-formedness is preserved by the pipeline -/

theorem map_fst_filter_ne (r : Row) (n : String) :
    (r.filter (fun p => decide (p.1 ≠ n))).map Prod.fst
      = (r.map Prod.fst).filter (fun c => decide (c ≠ n)) := by
  rw [List.filter_map]
  rfl

theorem WF_stripNames {df : DF} (h : WF df) : WF (stripNames df) := by
  intro r hr
  obtain ⟨r0, hr0, rfl⟩ := List.mem_map.mp hr
  show (r0.map _).map Prod.fst = df.cols.map pyStrip
  rw [List.map_map, ← h r0 hr0, List.map_map]
  rfl

theorem WF_dropByName {df : DF} (n : String) (h : WF df) : WF (dropByName df n) := by
  intro r hr
  obtain ⟨r0, hr0, rfl⟩ := List.mem_map.mp hr
  show (r0.filter _).map Prod.fst = df.cols.filter _
  rw [map_fst_filter_ne, h r0 hr0]

theorem WF_dropUnnamedFirst {df : DF} (h : WF df) : WF (dropUnnamedFirst df) := by
  unfold dropUnnamedFirst
  cases df.cols with
  | nil => exact h
  | cons c cs =>
    show WF (if isUnnamed c then dropByName df c else df)
    by_cases hc : isUnnamed c
    · rw [if_pos hc]
      exact WF_dropByName c h
    · rw [if_neg hc]
      exact h

theorem WF_renameCol {df : DF} (old new : String) (h : WF df) :
    WF (renameCol df old new) := by
  intro r hr
  obtain ⟨r0, hr0, rfl⟩ := List.mem_map.mp hr
  show (r0.map _).map Prod.fst = df.cols.map _
  rw [List.map_map, ← h r0 hr0, List.map_map]
  congr 1
  funext p
  by_cases hp : p.1 = old <;> simp [hp]

theorem WF_renameLat {df : DF} (h : WF df) : WF (renameLat df) := by
  unfold renameLat
  split
  · exact WF_renameCol _ _ h
  · exact h

theorem WF_renameLon {df : DF} (h : WF df) : WF (renameLon df) := by
  unfold renameLon
  split
  · exact WF_renameCol _ _ h
  · exact h

theorem mem_zipWith {α β γ : Type} (f : α → β → γ) :
    ∀ (l1 : List α) (l2 : List β), ∀ c ∈ List.zipWith f l1 l2, ∃ a ∈ l1, ∃ b, c = f a b
  | [], _, c, hc => by simp at hc
  | _ :: _, [], c, hc => by simp at hc
  | a :: t1, b :: t2, c, hc => by
    rw [List.zipWith_cons_cons] at hc
    rcases List.mem_cons.mp hc with h | h
    · exact ⟨a, List.mem_cons_self _ _, b, h⟩
    · obtain ⟨x, hx, y, hy⟩ := mem_zipWith f t1 t2 c h
      exact ⟨x, List.mem_cons_of_mem _ hx, y, hy⟩

theorem WF_setCol {df : DF} (n : String) (vs : List Value) (h : WF df) :
    WF (setCol df n vs) := by
  unfold setCol
  split
  · intro r hr
    obtain ⟨r0, hr0, v, rfl⟩ := mem_zipWith _ df.rows vs r hr
    show (r0.map _).map Prod.fst = df.cols
    rw [List.map_map, ← h r0 hr0]
    congr 1
    funext p
    by_cases hp : p.1 = n <;> simp [hp]
  · intro r hr
    obtain ⟨r0, hr0, v, rfl⟩ := mem_zipWith _ df.rows vs r hr
    show (r0 ++ _).map Prod.fst = df.cols ++ [n]
    rw [List.map_append, h r0 hr0]
    rfl

theorem WF_addLatStep {df0 df : DF} (h : WF df) : WF (addLatStep df0 df) := by
  unfold addLatStep
  split
  · exact WF_setCol _ _ h
  · exact h

theorem WF_addLonStep {df0 df : DF} (h : WF df) : WF (addLonStep df0 df) := by
  unfold addLonStep
  split
  · exact WF_setCol _ _ h
  · exact h

theorem WF_addCoords {df : DF} (h : WF df) : WF (addCoords df) := by
  unfold addCoords
  split
  · exact WF_addLonStep (WF_addLatStep h)
  · exact h

theorem WF_addTotalCapacity {df : DF} (h : WF df) : WF (addTotalCapacity df) := by
  unfold addTotalCapacity
  split
  · exact WF_setCol _ _ h
  · exact h

theorem WF_stage1 {df : DF} (h : WF df) : WF (stage1 df) :=
  WF_dropUnnamedFirst (WF_stripNames h)

theorem WF_stage2 {df : DF} (h : WF df) : WF (stage2 df) :=
  WF_renameLon (WF_renameLat (WF_stage1 h))

theorem WF_stage3 {df : DF} (h : WF df) : WF (stage3 df) :=
  WF_addCoords (WF_stage2 h)

theorem WF_standardize {df : DF} (h : WF df) : WF (standardize_columns df) :=
  WF_addTotalCapacity (WF_stage3 h)

example : extract_lat_lon (.str "41.09, 20.02") = (.num (41.09 : Rat), .num (20.02 : Rat)) := by
  decide

example : extract_lat_lon (.str "bad,value,x") = (.na, .na) := by decide

example : extract_lat_lon (.str "nocomma") = (.na, .na) := by decide

example : extract_lat_lon .na = (.na, .na) := by decide


/-! Splitting lemmas and claim C7 -/

theorem splitOnChar_ne_nil (sep : Char) : ∀ l : List Char, splitOnChar sep l ≠ []
  | [] => by simp [splitOnChar]
  | c :: t => by
    unfold splitOnChar
    by_cases h : c = sep
    · simp [h]
    · rw [if_neg h]
      cases hs : splitOnChar sep t <;> simp

theorem splitOnChar_length (sep : Char) :
    ∀ l : List Char, (splitOnChar sep l).length = l.count sep + 1
  | [] => by simp [splitOnChar]
  | c :: t => by
    unfold splitOnChar
    by_cases h : c = sep
    · rw [if_pos h]
      simp [List.count_cons, h, splitOnChar_length sep t]
    · rw [if_neg h]
      cases hs : splitOnChar sep t with
      | nil => exact absurd hs (splitOnChar_ne_nil sep t)
      | cons hd tl =>
        have hlen := splitOnChar_length sep t
        rw [hs] at hlen
        simp only [List.length_cons] at hlen
        have hne : (c == sep) = false := by simpa using h
        simp [List.length_cons, List.count_cons, hne]
        omega

/-- C7: The coordinate extractor agrees with the specification's
description on every value: missing gives two missing values, a string with
exactly one comma is split, trimmed, and float-parsed, and every other
shape or parse failure gives two missing values, as on the spec's four
examples. -/
theorem c7_coordinate_extraction :
    (∀ v : Value, extract_lat_lon v = specExtractLatLon v)
      ∧ extract_lat_lon (.str "41.09, 20.02") = (.num (41.09 : Rat), .num (20.02 : Rat))
      ∧ extract_lat_lon (.str "bad,value,x") = (.na, .na)
      ∧ extract_lat_lon (.str "nocomma") = (.na, .na)
      ∧ extract_lat_lon .na = (.na, .na) := by
  refine ⟨?_, by decide, by decide, by decide, by decide⟩
  intro v
  cases v with
  | na => rfl
  | num q => rfl
  | str s =>
    by_cases hm : ',' ∈ s.data
    · have hc : s.data.contains ',' = true := List.elem_iff.mpr hm
      cases hsp : splitOnChar ',' s.data with
      | nil => exact absurd hsp (splitOnChar_ne_nil ',' s.data)
      | cons a t =>
        have hlen := splitOnChar_length ',' s.data
        rw [hsp] at hlen
        cases t with
        | nil =>
          simp only [List.length_cons, List.length_nil] at hlen
          have : s.data.count ',' = 0 := by omega
          exact absurd hm (List.count_eq_zero.mp this)
        | cons b t2 =>
          cases t2 with
          | nil =>
            have h1 : s.data.count ',' = 1 := by
              simp only [List.length_cons, List.length_nil] at hlen
              omega
            simp only [extract_lat_lon, specExtractLatLon, hc, hsp, h1, if_true]
          | cons cc t3 =>
            have h1 : s.data.count ',' ≠ 1 := by
              simp only [List.length_cons] at hlen
              omega
            simp only [extract_lat_lon, specExtractLatLon, hc, hsp, if_true, if_neg h1]
    · have hc : s.data.contains ',' = false := by
        rw [← Bool.not_eq_true]
        intro hcon
        exact hm (List.elem_iff.mp hcon)
      have h1 : s.data.count ',' ≠ 1 := by
        rw [List.count_eq_zero.mpr hm]
        omega
      simp only [extract_lat_lon, specExtractLatLon, hc, if_neg h1, Bool.false_eq_true,
        if_false]


/-! Claim C8: the missing input file is the only fatal error -/

/-- C8: `load_data` fails exactly when the input file is absent, the
error message names the expected file, and no table is produced in that
case; per-value parse failures never abort: numeric coercion of an
unparseable string degrades to a missing value, and the coordinate
extractor always returns a pair of values that are each missing or
numeric. -/
theorem c8_missing_file_is_only_fatal_error :
    (∀ input : Option DF, (∃ e, load_data input = Except.error e) ↔ input = none)
      ∧ (∀ e, load_data none = Except.error e →
          isInfixB "plants_processed.csv".data e.data = true)
      ∧ (∀ s : String, parseFloat? (stripChars s.data) = none →
          toNumeric (.str s) = .na)
      ∧ (∀ v : Value, (extract_lat_lon v).1 = .na ∨ ∃ x, (extract_lat_lon v).1 = .num x) := by
  refine ⟨?_, ?_, ?_, ?_⟩
  · intro input
    cases input with
    | none => exact ⟨fun _ => rfl, fun _ => ⟨_, rfl⟩⟩
    | some df =>
      constructor
      · rintro ⟨e, he⟩
        exact absurd he (by simp [load_data])
      · intro h
        exact absurd h (by simp)
  · intro e he
    have : e = "plants_processed.csv not found. Please place the file next to the app." := by
      simpa [load_data] using he.symm
    rw [this]
    decide
  · intro s h
    simp only [toNumeric, h]
  · intro v
    cases v with
    | na => exact Or.inl rfl
    | num q => exact Or.inl rfl
    | str s =>
      simp only [extract_lat_lon]
      repeat' split
      all_goals first
        | exact Or.inl rfl
        | exact Or.inr ⟨_, rfl⟩

theorem c8_missing_file_witness :
    (load_data none).isOk = false ∧ toNumeric (.str "abc") = Value.na := by
  constructor
  · obtain ⟨e, he⟩ := (c8_missing_file_is_only_fatal_error.1 none).mpr rfl
    rw [he]
    rfl
  · exact c8_missing_file_is_only_fatal_error.2.2.1 "abc" (by decide)

/-! Claim C5: grouping-key selection -/

/-- C5: The grouping key is selected with the spec's priority: the
`Plant ID` column when it exists; otherwise the members of the composite
fallback set (`Plant name (English)`, `Owner`, `latitude`, `longitude`,
`Country/Area`) that exist in the table; otherwise the single first
column. -/
theorem c5_grouping_key_selection (df : DF) :
    ("Plant ID" ∈ df.cols → chooseKey df = ["Plant ID"])
      ∧ ("Plant ID" ∉ df.cols → (∃ c ∈ fallbackKeyCols, c ∈ df.cols) →
          chooseKey df = fallbackKeyCols.filter (fun c => decide (c ∈ df.cols)))
      ∧ ("Plant ID" ∉ df.cols → (∀ c ∈ fallbackKeyCols, c ∉ df.cols) →
          ∀ c0 cs, df.cols = c0 :: cs → chooseKey df = [c0]) := by
  refine ⟨?_, ?_, ?_⟩
  · intro h
    unfold chooseKey
    rw [if_pos h]
  · intro h hex
    obtain ⟨c, hc, hcm⟩ := hex
    have hne : fallbackKeyCols.filter (fun c => decide (c ∈ df.cols)) ≠ [] :=
      List.ne_nil_of_mem (List.mem_filter.mpr ⟨hc, by simpa using hcm⟩)
    unfold chooseKey
    rw [if_neg h, if_neg hne]
  · intro h hall c0 cs hcols
    have hnil : fallbackKeyCols.filter (fun c => decide (c ∈ df.cols)) = [] :=
      List.filter_eq_nil_iff.mpr (fun c hc => by simpa using hall c hc)
    unfold chooseKey
    rw [if_neg h, if_pos hnil, hcols]
    rfl

theorem c5_grouping_key_selection_witness :
    chooseKey ⟨["Plant ID", "Owner"], []⟩ = ["Plant ID"]
      ∧ chooseKey ⟨["name", "Owner", "x"], []⟩ = ["Owner"]
      ∧ chooseKey ⟨["A", "B"], []⟩ = ["A"] := by
  refine ⟨(c5_grouping_key_selection _).1 (by decide), ?_, ?_⟩
  · have h := (c5_grouping_key_selection ⟨["name", "Owner", "x"], []⟩).2.1 (by decide)
      ⟨"Owner", by decide, by decide⟩
    rw [h]
    decide
  · exact (c5_grouping_key_selection ⟨["A", "B"], []⟩).2.2 (by decide) (by decide)
      "A" ["B"] rfl


/-! Structure of the aggregated output (used by C1, C4, C6, C10) -/

theorem mem_outKeys {df : DF} {k : List Value} :
    k ∈ outKeys df ↔ k ∈ rowKeys df := by
  unfold outKeys
  rw [List.mem_insertionSort]
  exact List.mem_dedup

theorem outKeys_nodup (df : DF) : (outKeys df).Nodup := by
  unfold outKeys
  exact (List.perm_insertionSort KeyLE _).nodup_iff.mpr (List.nodup_dedup _)

theorem outKeys_length_eq {df : DF} {k : List Value} (hk : k ∈ outKeys df) :
    k.length = (chooseKey df).length := by
  obtain ⟨r, _, rfl⟩ := List.mem_map.mp (mem_outKeys.mp hk)
  exact List.length_map _ _

theorem agg_row_key_part (df : DF) (k : List Value) (rest : Row)
    (hlen : k.length = (chooseKey df).length) :
    (((chooseKey df).zip k ++ rest).take (chooseKey df).length).map Prod.snd = k := by
  have hz : ((chooseKey df).zip k).length = (chooseKey df).length := by
    rw [List.length_zip, hlen, min_self]
  rw [← hz, List.take_left]
  exact List.map_snd_zip _ _ (le_of_eq hlen)

theorem agg_rows_keys (df : DF) :
    (aggregate_duplicates df).rows.map
        (fun r => (r.take (chooseKey df).length).map Prod.snd)
      = outKeys df := by
  show ((outKeys df).map _).map _ = outKeys df
  rw [List.map_map]
  have h : ∀ k ∈ outKeys df,
      ((fun r : Row => (r.take (chooseKey df).length).map Prod.snd) ∘
        (fun k => (chooseKey df).zip k ++
          (df.cols.filter (fun c => decide (c ∉ chooseKey df))).map
            (fun c => (c, applyAgg (aggKind c) (groupVals df c k))))) k = k := by
    intro k hk
    exact agg_row_key_part df k _ (outKeys_length_eq hk)
  rw [List.map_congr_left h]
  simp

theorem chooseKey_congr {df df' : DF} (h : df'.cols = df.cols) :
    chooseKey df' = chooseKey df := by
  unfold chooseKey
  rw [h]

/-! Claim C6: no rows are dropped; one output row per distinct key -/

/-- C6: Aggregation drops no input rows: the key of every input row
(missing key values included) appears among the output keys, the output
keys are pairwise distinct (each key occupies exactly one output row), and
there are exactly as many output rows as distinct input key tuples. -/
theorem c6_no_rows_dropped (df : DF) :
    ((aggregate_duplicates df).rows.map
        (fun r => (r.take (chooseKey df).length).map Prod.snd) = outKeys df)
      ∧ (outKeys df).Nodup
      ∧ (∀ r ∈ df.rows, keyOf (chooseKey df) r ∈ outKeys df)
      ∧ (aggregate_duplicates df).rows.length = (rowKeys df).dedup.length := by
  refine ⟨agg_rows_keys df, outKeys_nodup df, ?_, ?_⟩
  · intro r hr
    exact mem_outKeys.mpr (List.mem_map.mpr ⟨r, hr, rfl⟩)
  · show ((outKeys df).map _).length = _
    rw [List.length_map]
    exact (List.perm_insertionSort KeyLE _).length_eq

theorem c6_no_rows_dropped_witness :
    keyOf (chooseKey ⟨["Plant ID"], [[("Plant ID", Value.na)], [("Plant ID", Value.na)]]⟩)
        [("Plant ID", Value.na)]
      ∈ outKeys ⟨["Plant ID"], [[("Plant ID", Value.na)], [("Plant ID", Value.na)]]⟩
      ∧ (aggregate_duplicates
          ⟨["Plant ID"], [[("Plant ID", Value.na)], [("Plant ID", Value.na)]]⟩).rows.length
        = 1 := by
  constructor
  · exact (c6_no_rows_dropped _).2.2.1 [("Plant ID", Value.na)] (by decide)
  · exact ((c6_no_rows_dropped _).2.2.2).trans (by decide)

/-! Claim C10: output rows are in ascending key order -/

/-- C10: The aggregated output's rows are ordered by ascending
grouping-key value (missing keys last), not by order of first appearance:
the sequence of output keys is sorted under the group-key order, and
permuting the input rows leaves the output key sequence unchanged. -/
theorem c10_output_sorted_and_permutation_invariant (df df' : DF)
    (hcols : df'.cols = df.cols) (hrows : df'.rows.Perm df.rows) :
    List.Sorted KeyLE (outKeys df)
      ∧ outKeys df' = outKeys df
      ∧ (aggregate_duplicates df').rows.map
          (fun r => (r.take (chooseKey df').length).map Prod.snd)
        = (aggregate_duplicates df).rows.map
            (fun r => (r.take (chooseKey df).length).map Prod.snd) := by
  have hsorted : ∀ d : DF, List.Sorted KeyLE (outKeys d) := fun d =>
    List.sorted_insertionSort KeyLE _
  have hkeys : outKeys df' = outKeys df := by
    have hperm : (rowKeys df').dedup.Perm (rowKeys df).dedup := by
      apply List.Perm.dedup
      unfold rowKeys
      rw [chooseKey_congr hcols]
      exact hrows.map _
    have h1 : (outKeys df').Perm (outKeys df) :=
      ((List.perm_insertionSort KeyLE _).trans hperm).trans
        (List.perm_insertionSort KeyLE _).symm
    exact List.eq_of_perm_of_sorted h1 (hsorted df') (hsorted df)
  refine ⟨hsorted df, hkeys, ?_⟩
  rw [agg_rows_keys df', agg_rows_keys df, hkeys]

theorem c10_witness :
    outKeys ⟨["Plant ID"], [[("Plant ID", Value.str "A")], [("Plant ID", Value.str "B")]]⟩
      = outKeys ⟨["Plant ID"], [[("Plant ID", Value.str "B")], [("Plant ID", Value.str "A")]]⟩
      ∧ List.Sorted KeyLE
          (outKeys ⟨["Plant ID"], [[("Plant ID", Value.str "B")], [("Plant ID", Value.str "A")]]⟩) := by
  have h := c10_output_sorted_and_permutation_invariant
    ⟨["Plant ID"], [[("Plant ID", Value.str "B")], [("Plant ID", Value.str "A")]]⟩
    ⟨["Plant ID"], [[("Plant ID", Value.str "A")], [("Plant ID", Value.str "B")]]⟩
    rfl (by decide)
  exact ⟨h.2.1, h.1⟩


/-! The value of a non-key column in an output row (shared by C1, C4) -/

theorem find?_map_pair (g : String → Value) (c : String) :
    ∀ l : List String, c ∈ l →
      List.find? (fun p => decide (p.1 = c)) (l.map (fun x => (x, g x)))
        = some (c, g c)
  | [], h => absurd h (List.not_mem_nil c)
  | x :: t, h => by
    by_cases hx : x = c
    · subst hx
      simp [List.find?_cons]
    · rw [List.map_cons, List.find?_cons_of_neg _ (by simp [hx])]
      exact find?_map_pair g c t
        ((List.mem_cons.mp h).resolve_left (fun hh => hx hh.symm))

theorem agg_out_row_exists (df : DF) (c : String) (k : List Value)
    (hk : k ∈ outKeys df) (hc : c ∈ df.cols) (hnk : c ∉ chooseKey df) :
    ∃ r ∈ (aggregate_duplicates df).rows,
      (r.take (chooseKey df).length).map Prod.snd = k ∧
      getCell r c = applyAgg (aggKind c) (groupVals df c k) := by
  refine ⟨(chooseKey df).zip k ++
    (df.cols.filter (fun c => decide (c ∉ chooseKey df))).map
      (fun c => (c, applyAgg (aggKind c) (groupVals df c k))), ?_, ?_, ?_⟩
  · exact List.mem_map.mpr ⟨k, hk, rfl⟩
  · exact agg_row_key_part df k _ (outKeys_length_eq hk)
  · unfold getCell
    rw [List.find?_append]
    have hnone :
        ((chooseKey df).zip k).find? (fun p => decide (p.1 = c)) = none := by
      apply List.find?_eq_none.mpr
      intro p hp
      have hmem := (List.of_mem_zip hp).1
      simp only [decide_eq_true_eq]
      intro heq
      exact hnk (heq ▸ hmem)
    rw [hnone]
    have hcm : c ∈ df.cols.filter (fun c => decide (c ∉ chooseKey df)) :=
      List.mem_filter.mpr ⟨hc, by simpa using hnk⟩
    rw [find?_map_pair _ c _ hcm]
    rfl

theorem filterMap_num_filter_not_na :
    ∀ vs : List Value,
      ((vs.filter (fun v => !v.isNa)).filterMap Value.num?) = vs.filterMap Value.num?
  | [] => rfl
  | v :: t => by
    have ih := filterMap_num_filter_not_na t
    cases v with
    | na =>
      rw [List.filter_cons, if_neg (by decide)]
      show List.filterMap Value.num? (List.filter (fun v => !v.isNa) t)
          = List.filterMap Value.num? t
      exact ih
    | num q =>
      rw [List.filter_cons, if_pos (show (!(Value.num q).isNa) = true from rfl)]
      show q :: List.filterMap Value.num? (List.filter (fun v => !v.isNa) t)
          = q :: List.filterMap Value.num? t
      rw [ih]
    | str s =>
      rw [List.filter_cons, if_pos (show (!(Value.str s).isNa) = true from rfl)]
      show List.filterMap Value.num? (List.filter (fun v => !v.isNa) t)
          = List.filterMap Value.num? t
      exact ih

/-! Claim C1 (corrected): capacity columns aggregate with sum, all-missing gives 0 -/

/-- C1 counterexample, the claim as stated is false: a group whose capacity values are all
missing aggregates to `0`, not to a missing value (`GroupBy.sum` uses
`min_count=0`).  Here the standardized table has a single all-missing
capacity column, the per-row derived total is missing, yet the aggregated
output row carries `0` in both the raw capacity column and the derived
total. -/
theorem c1_capacity_sum_counterexample :
    getColVals
        (standardize_columns
          ⟨["Plant ID", "Capacity A"],
           [[("Plant ID", Value.str "P1"), ("Capacity A", Value.na)]]⟩)
        "Total capacity (ttpa)" = [Value.na]
      ∧ getCell
          ((aggregate_duplicates
            (standardize_columns
              ⟨["Plant ID", "Capacity A"],
               [[("Plant ID", Value.str "P1"), ("Capacity A", Value.na)]]⟩)).rows.headD [])
          "Total capacity (ttpa)" = Value.num 0
      ∧ getCell
          ((aggregate_duplicates
            (standardize_columns
              ⟨["Plant ID", "Capacity A"],
               [[("Plant ID", Value.str "P1"), ("Capacity A", Value.na)]]⟩)).rows.headD [])
          "Capacity A" = Value.num 0 := by
  refine ⟨by decide, by decide, by decide⟩

/-- C1 amended: For every group and every capacity-like non-key
column, the aggregated value equals the numeric sum of the group's
non-missing per-row values; in particular an all-missing group yields `0`
(not missing). -/
theorem c1_capacity_sum_amended (df : DF) (c : String) (k : List Value)
    (hcap : hasCapacity c = true) (hc : c ∈ df.cols) (hnk : c ∉ chooseKey df)
    (hk : k ∈ outKeys df)
    (hnum : (groupVals df c k).all (fun v => v.isNa || v.isNum) = true) :
    ∃ r ∈ (aggregate_duplicates df).rows,
      (r.take (chooseKey df).length).map Prod.snd = k ∧
      getCell r c = Value.num (((groupVals df c k).filterMap Value.num?).sum) := by
  obtain ⟨r, hr, hkey, hval⟩ := agg_out_row_exists df c k hk hc hnk
  refine ⟨r, hr, hkey, ?_⟩
  rw [hval]
  have htext : c ∉ firstTextCols := by
    intro hmem
    have hall : ∀ x ∈ firstTextCols, hasCapacity x = false := by decide
    rw [hall c hmem] at hcap
    exact absurd hcap (by decide)
  have hwf : c ≠ "Workforce size" := by
    intro heq
    rw [heq] at hcap
    exact absurd hcap (by decide)
  have hkind : aggKind c = .sum := by
    unfold aggKind
    rw [if_neg htext, if_neg hwf, if_pos hcap]
  rw [hkind]
  show aggSum (groupVals df c k) = _
  unfold aggSum
  have hws : ((groupVals df c k).filter (fun v => !v.isNa)).all Value.isNum = true := by
    apply List.all_eq_true.mpr
    intro v hv
    obtain ⟨hvm, hvb⟩ := List.mem_filter.mp hv
    have hv2 := List.all_eq_true.mp hnum v hvm
    cases v with
    | na => simp [Value.isNa] at hvb
    | num q => rfl
    | str s => simp [Value.isNa, Value.isNum] at hv2
  rw [if_pos hws, filterMap_num_filter_not_na]

theorem c1_capacity_sum_amended_witness :
    ∃ r ∈ (aggregate_duplicates
        ⟨["Plant ID", "Capacity A"],
         [[("Plant ID", Value.str "P1"), ("Capacity A", Value.num 100)],
          [("Plant ID", Value.str "P1"), ("Capacity A", Value.num 50)]]⟩).rows,
      (r.take (chooseKey
        ⟨["Plant ID", "Capacity A"],
         [[("Plant ID", Value.str "P1"), ("Capacity A", Value.num 100)],
          [("Plant ID", Value.str "P1"), ("Capacity A", Value.num 50)]]⟩).length).map Prod.snd
        = [Value.str "P1"]
      ∧ getCell r "Capacity A"
        = Value.num ((((groupVals
            ⟨["Plant ID", "Capacity A"],
             [[("Plant ID", Value.str "P1"), ("Capacity A", Value.num 100)],
              [("Plant ID", Value.str "P1"), ("Capacity A", Value.num 50)]]⟩)
            "Capacity A" [Value.str "P1"]).filterMap Value.num?).sum) := by
  exact c1_capacity_sum_amended _ "Capacity A" [Value.str "P1"]
    (by decide) (by decide) (by decide) (by decide) (by decide)

/-! Claim C4 (corrected): "first" takes the first non-missing value -/

/-- C4 counterexample, the claim as stated is false: pandas `GroupBy.first` skips missing
values, so when the first row of a group is missing in a descriptive
column, the output carries a later row's value, not the first row's.  Here
the first row's `Owner` is missing and the output row carries `"X"` from
the second row. -/
theorem c4_first_wins_counterexample :
    getCell
        (((aggregate_duplicates
          ⟨["Plant ID", "Owner"],
           [[("Plant ID", Value.str "P1"), ("Owner", Value.na)],
            [("Plant ID", Value.str "P1"), ("Owner", Value.str "X")]]⟩)).rows.headD [])
        "Owner" = Value.str "X"
      ∧ getCell
          ((⟨["Plant ID", "Owner"],
             [[("Plant ID", Value.str "P1"), ("Owner", Value.na)],
              [("Plant ID", Value.str "P1"), ("Owner", Value.str "X")]]⟩ : DF).rows.headD [])
          "Owner" = Value.na := by
  refine ⟨by decide, by decide⟩

/-- C4 amended: For every group and every non-key column outside the
capacity family and `Workforce size`, the output row carries the group's
first non-missing value in input row order (missing when the whole group
is missing in that column). -/
theorem c4_first_nonmissing_amended (df : DF) (c : String) (k : List Value)
    (hcap : hasCapacity c = false) (hw : c ≠ "Workforce size")
    (hc : c ∈ df.cols) (hnk : c ∉ chooseKey df) (hk : k ∈ outKeys df) :
    ∃ r ∈ (aggregate_duplicates df).rows,
      (r.take (chooseKey df).length).map Prod.snd = k ∧
      getCell r c = ((groupVals df c k).filter (fun v => !v.isNa)).headD Value.na := by
  obtain ⟨r, hr, hkey, hval⟩ := agg_out_row_exists df c k hk hc hnk
  refine ⟨r, hr, hkey, ?_⟩
  rw [hval]
  have hkind : aggKind c = .first := by
    unfold aggKind
    by_cases ht : c ∈ firstTextCols
    · rw [if_pos ht]
    · rw [if_neg ht, if_neg hw, if_neg (by simp [hcap])]
  rw [hkind]
  rfl

theorem c4_first_nonmissing_amended_witness :
    ∃ r ∈ (aggregate_duplicates
        ⟨["Plant ID", "Owner"],
         [[("Plant ID", Value.str "P1"), ("Owner", Value.str "A")],
          [("Plant ID", Value.str "P1"), ("Owner", Value.str "B")]]⟩).rows,
      (r.take (chooseKey
        ⟨["Plant ID", "Owner"],
         [[("Plant ID", Value.str "P1"), ("Owner", Value.str "A")],
          [("Plant ID", Value.str "P1"), ("Owner", Value.str "B")]]⟩).length).map Prod.snd
        = [Value.str "P1"]
      ∧ getCell r "Owner"
        = (((groupVals
            ⟨["Plant ID", "Owner"],
             [[("Plant ID", Value.str "P1"), ("Owner", Value.str "A")],
              [("Plant ID", Value.str "P1"), ("Owner", Value.str "B")]]⟩)
            "Owner" [Value.str "P1"]).filter (fun v => !v.isNa)).headD Value.na := by
  exact c4_first_nonmissing_amended _ "Owner" [Value.str "P1"]
    (by decide) (by decide) (by decide) (by decide) (by decide)


/-! Row-indexing helpers and per-step row shapes (used by C2, C3, C9) -/

theorem getD_lt_mem {α : Type} : ∀ (l : List α) (i : Nat) (d : α),
    i < l.length → l.getD i d ∈ l
  | a :: t, 0, d, _ => List.mem_cons_self a t
  | a :: t, i + 1, d, h =>
    List.mem_cons_of_mem a (getD_lt_mem t i d (by simpa using h))

theorem getD_map_lt {α β : Type} (f : α → β) : ∀ (l : List α) (i : Nat) (db : β) (da : α),
    i < l.length → (l.map f).getD i db = f (l.getD i da)
  | a :: t, 0, db, da, _ => rfl
  | a :: t, i + 1, db, da, h => getD_map_lt f t i db da (by simpa using h)

theorem setCol_rows_mem (df : DF) (n : String) (vs : List Value) (h : n ∈ df.cols) :
    (setCol df n vs).rows
      = List.zipWith (fun r v => r.map (fun p => if p.1 = n then (p.1, v) else p))
          df.rows vs := by
  unfold setCol
  rw [if_pos h]

theorem setCol_rows_not_mem (df : DF) (n : String) (vs : List Value) (h : n ∉ df.cols) :
    (setCol df n vs).rows = List.zipWith (fun r v => r ++ [(n, v)]) df.rows vs := by
  unfold setCol
  rw [if_neg h]

theorem stripNames_rows_length (df : DF) : (stripNames df).rows.length = df.rows.length :=
  List.length_map _ _

theorem dropUnnamedFirst_rows_length (df : DF) :
    (dropUnnamedFirst df).rows.length = df.rows.length := by
  unfold dropUnnamedFirst
  cases df.cols with
  | nil => rfl
  | cons c cs =>
    show (if isUnnamed c then dropByName df c else df).rows.length = _
    split
    · exact List.length_map _ _
    · rfl

theorem renameLat_rows_length (df : DF) : (renameLat df).rows.length = df.rows.length := by
  unfold renameLat
  split
  · exact List.length_map _ _
  · rfl

theorem renameLon_rows_length (df : DF) : (renameLon df).rows.length = df.rows.length := by
  unfold renameLon
  split
  · exact List.length_map _ _
  · rfl

theorem stage1_rows_length (df : DF) : (stage1 df).rows.length = df.rows.length := by
  unfold stage1
  rw [dropUnnamedFirst_rows_length, stripNames_rows_length]

theorem stage2_rows_length (df : DF) : (stage2 df).rows.length = df.rows.length := by
  unfold stage2
  rw [renameLon_rows_length, renameLat_rows_length, stage1_rows_length]

theorem coordVals_length (df : DF) : (coordVals df).length = df.rows.length :=
  List.length_map _ _

theorem setCol_rows_length (df : DF) (n : String) (vs : List Value)
    (h : vs.length = df.rows.length) : (setCol df n vs).rows.length = df.rows.length := by
  unfold setCol
  split <;> simp [List.length_zipWith, h]

theorem addLatStep_rows_length (df0 df : DF) (h : df0.rows.length = df.rows.length) :
    (addLatStep df0 df).rows.length = df.rows.length := by
  unfold addLatStep
  split
  · exact setCol_rows_length _ _ _ (by rw [List.length_map, coordVals_length, h])
  · rfl

theorem addLonStep_rows_length (df0 df : DF) (h : df0.rows.length = df.rows.length) :
    (addLonStep df0 df).rows.length = df.rows.length := by
  unfold addLonStep
  split
  · exact setCol_rows_length _ _ _ (by rw [List.length_map, coordVals_length, h])
  · rfl

theorem addCoords_rows_length (df : DF) : (addCoords df).rows.length = df.rows.length := by
  unfold addCoords
  split
  · rw [addLonStep_rows_length _ _ ?_, addLatStep_rows_length _ _ rfl]
    rw [addLatStep_rows_length _ _ rfl]
  · rfl

theorem stage3_rows_length (df : DF) : (stage3 df).rows.length = df.rows.length := by
  unfold stage3
  rw [addCoords_rows_length, stage2_rows_length]

theorem addTotalCapacity_rows_length (df : DF) :
    (addTotalCapacity df).rows.length = df.rows.length := by
  unfold addTotalCapacity
  split
  · exact setCol_rows_length _ _ _ (List.length_map _ _)
  · rfl

theorem standardize_rows_length (df : DF) :
    (standardize_columns df).rows.length = df.rows.length := by
  unfold standardize_columns
  rw [addTotalCapacity_rows_length, stage3_rows_length]

/-! Capacity cells are untouched by renames and coordinate columns -/

theorem capCells_append_not_cap (r : Row) (n : String) (v : Value)
    (h : hasCapacity n = false) : capCells (r ++ [(n, v)]) = capCells r := by
  unfold capCells
  rw [List.filter_append]
  have : ([(n, v)] : Row).filter (fun p => hasCapacity p.1) = [] := by
    simp [List.filter_cons, h]
  rw [this, List.append_nil]

theorem capCells_map_rename (old new : String)
    (h1 : hasCapacity old = false) (h2 : hasCapacity new = false) :
    ∀ r : Row,
      capCells (r.map (fun p => if p.1 = old then (new, p.2) else p)) = capCells r
  | [] => rfl
  | p :: t => by
    have ih := capCells_map_rename old new h1 h2 t
    unfold capCells at ih ⊢
    by_cases hp : p.1 = old
    · rw [List.map_cons, if_pos hp]
      rw [List.filter_cons_of_neg (by simp [h2]),
        List.filter_cons_of_neg (by simp [hp, h1])]
      exact ih
    · rw [List.map_cons, if_neg hp]
      by_cases hc : hasCapacity p.1 = true
      · rw [List.filter_cons_of_pos (by simp [hc]),
          List.filter_cons_of_pos (by simp [hc])]
        simpa using ih
      · rw [List.filter_cons_of_neg (by simp [hc]),
          List.filter_cons_of_neg (by simp [hc])]
        exact ih

theorem capCells_map_replace (n : String) (v : Value)
    (h : hasCapacity n = false) :
    ∀ r : Row,
      capCells (r.map (fun p => if p.1 = n then (p.1, v) else p)) = capCells r
  | [] => rfl
  | p :: t => by
    have ih := capCells_map_replace n v h t
    unfold capCells at ih ⊢
    by_cases hp : p.1 = n
    · rw [List.map_cons, if_pos hp]
      rw [List.filter_cons_of_neg (by simp [hp, h]),
        List.filter_cons_of_neg (by simp [hp, h])]
      exact ih
    · rw [List.map_cons, if_neg hp]
      by_cases hc : hasCapacity p.1 = true
      · rw [List.filter_cons_of_pos (by simp [hc]),
          List.filter_cons_of_pos (by simp [hc])]
        simpa using ih
      · rw [List.filter_cons_of_neg (by simp [hc]),
          List.filter_cons_of_neg (by simp [hc])]
        exact ih

/-! The `any capacity` test survives the renames and appended columns -/

theorem any_capacity_renameCol (df : DF) (old new : String)
    (h : hasCapacity old = hasCapacity new) :
    (renameCol df old new).cols.any hasCapacity = df.cols.any hasCapacity := by
  show (df.cols.map _).any hasCapacity = _
  rw [List.any_map]
  congr 1
  funext c
  by_cases hc : c = old <;> simp [hc, ← h]

theorem any_capacity_renameLat (df : DF) :
    (renameLat df).cols.any hasCapacity = df.cols.any hasCapacity := by
  unfold renameLat
  split
  · exact any_capacity_renameCol df _ _ (by decide)
  · rfl

theorem any_capacity_renameLon (df : DF) :
    (renameLon df).cols.any hasCapacity = df.cols.any hasCapacity := by
  unfold renameLon
  split
  · exact any_capacity_renameCol df _ _ (by decide)
  · rfl

theorem any_capacity_setCol_not_cap (df : DF) (n : String) (vs : List Value)
    (h : hasCapacity n = false) :
    (setCol df n vs).cols.any hasCapacity = df.cols.any hasCapacity := by
  rw [setCol_cols]
  split
  · rfl
  · rw [List.any_append]
    simp [h]

theorem any_capacity_addLatStep (df0 df : DF) :
    (addLatStep df0 df).cols.any hasCapacity = df.cols.any hasCapacity := by
  unfold addLatStep
  split
  · exact any_capacity_setCol_not_cap _ _ _ (by decide)
  · rfl

theorem any_capacity_addLonStep (df0 df : DF) :
    (addLonStep df0 df).cols.any hasCapacity = df.cols.any hasCapacity := by
  unfold addLonStep
  split
  · exact any_capacity_setCol_not_cap _ _ _ (by decide)
  · rfl

theorem any_capacity_stage3 (df : DF) :
    (stage3 df).cols.any hasCapacity = (stage1 df).cols.any hasCapacity := by
  unfold stage3 addCoords
  split
  · rw [any_capacity_addLonStep, any_capacity_addLatStep]
    unfold stage2
    rw [any_capacity_renameLon, any_capacity_renameLat]
  · unfold stage2
    rw [any_capacity_renameLon, any_capacity_renameLat]

/-! The extractor yields numeric-or-missing components -/

theorem extract_fst_shape (v : Value) :
    (extract_lat_lon v).1 = Value.na ∨ ∃ x, (extract_lat_lon v).1 = Value.num x := by
  cases v with
  | na => exact Or.inl rfl
  | num q => exact Or.inl rfl
  | str s =>
    simp only [extract_lat_lon]
    repeat' split
    all_goals first
      | exact Or.inl rfl
      | exact Or.inr ⟨_, rfl⟩

theorem extract_snd_shape (v : Value) :
    (extract_lat_lon v).2 = Value.na ∨ ∃ x, (extract_lat_lon v).2 = Value.num x := by
  cases v with
  | na => exact Or.inl rfl
  | num q => exact Or.inl rfl
  | str s =>
    simp only [extract_lat_lon]
    repeat' split
    all_goals first
      | exact Or.inl rfl
      | exact Or.inr ⟨_, rfl⟩

/-! `sumMin1` realizes the min-count-1 contract -/

theorem sumMin1_na_iff (vs : List Value) :
    sumMin1 vs = Value.na ↔ vs.all Value.isNa = true := by
  unfold sumMin1
  split
  · rename_i h
    exact ⟨fun _ => h, fun _ => rfl⟩
  · rename_i h
    constructor
    · intro hh
      exact absurd hh (by simp)
    · intro hh
      exact absurd hh h

theorem sumMin1_num (vs : List Value) (h : vs.all Value.isNa = false) :
    sumMin1 vs = Value.num ((vs.filterMap Value.num?).sum) := by
  unfold sumMin1
  rw [if_neg (by simp [h])]


/-! The capacity cells of a row are those of the trimmed input row -/

theorem getD_zipWith_lt {α β γ : Type} (f : α → β → γ) :
    ∀ (l1 : List α) (l2 : List β) (i : Nat) (d : γ) (d1 : α) (d2 : β),
      i < l1.length → i < l2.length →
      (List.zipWith f l1 l2).getD i d = f (l1.getD i d1) (l2.getD i d2)
  | a :: t1, b :: t2, 0, _, _, _, _, _ => rfl
  | a :: t1, b :: t2, i + 1, d, d1, d2, h1, h2 =>
    getD_zipWith_lt f t1 t2 i d d1 d2 (by simpa using h1) (by simpa using h2)
  | [], _, i, d, d1, d2, h1, _ => absurd h1 (by simp)
  | _ :: _, [], i, d, d1, d2, _, h2 => absurd h2 (by simp)

theorem capCells_getD_renameLat (df : DF) (i : Nat) (hi : i < df.rows.length) :
    capCells ((renameLat df).rows.getD i []) = capCells (df.rows.getD i []) := by
  unfold renameLat
  split
  · rw [show (renameCol df "Latitude" "latitude").rows
        = df.rows.map
            (fun r => r.map (fun p => if p.1 = "Latitude" then ("latitude", p.2) else p))
          from rfl]
    rw [getD_map_lt _ df.rows i [] [] hi]
    exact capCells_map_rename _ _ (by decide) (by decide) _
  · rfl

theorem capCells_getD_renameLon (df : DF) (i : Nat) (hi : i < df.rows.length) :
    capCells ((renameLon df).rows.getD i []) = capCells (df.rows.getD i []) := by
  unfold renameLon
  split
  · rw [show (renameCol df "Longitude" "longitude").rows
        = df.rows.map
            (fun r => r.map (fun p => if p.1 = "Longitude" then ("longitude", p.2) else p))
          from rfl]
    rw [getD_map_lt _ df.rows i [] [] hi]
    exact capCells_map_rename _ _ (by decide) (by decide) _
  · rfl

theorem capCells_getD_stage2 (df : DF) (i : Nat) (hi : i < df.rows.length) :
    capCells ((stage2 df).rows.getD i []) = capCells ((stage1 df).rows.getD i []) := by
  unfold stage2
  rw [capCells_getD_renameLon _ i
      (by rw [renameLat_rows_length, stage1_rows_length]; exact hi),
    capCells_getD_renameLat _ i (by rw [stage1_rows_length]; exact hi)]

theorem capCells_getD_addLatStep (df0 df : DF) (i : Nat) (hi : i < df.rows.length)
    (hlen : df0.rows.length = df.rows.length) :
    capCells ((addLatStep df0 df).rows.getD i []) = capCells (df.rows.getD i []) := by
  unfold addLatStep
  split
  · rename_i h
    rw [setCol_rows_not_mem _ _ _ h]
    rw [getD_zipWith_lt _ df.rows _ i [] [] Value.na hi
      (by rw [List.length_map, coordVals_length, hlen]; exact hi)]
    exact capCells_append_not_cap _ _ _ (by decide)
  · rfl

theorem capCells_getD_addLonStep (df0 df : DF) (i : Nat) (hi : i < df.rows.length)
    (hlen : df0.rows.length = df.rows.length) :
    capCells ((addLonStep df0 df).rows.getD i []) = capCells (df.rows.getD i []) := by
  unfold addLonStep
  split
  · rename_i h
    rw [setCol_rows_not_mem _ _ _ h]
    rw [getD_zipWith_lt _ df.rows _ i [] [] Value.na hi
      (by rw [List.length_map, coordVals_length, hlen]; exact hi)]
    exact capCells_append_not_cap _ _ _ (by decide)
  · rfl

theorem capCells_getD_addCoords (df : DF) (i : Nat) (hi : i < df.rows.length) :
    capCells ((addCoords df).rows.getD i []) = capCells (df.rows.getD i []) := by
  unfold addCoords
  split
  · rw [capCells_getD_addLonStep df (addLatStep df df) i
        (by rw [addLatStep_rows_length _ _ rfl]; exact hi)
        (by rw [addLatStep_rows_length _ _ rfl]),
      capCells_getD_addLatStep df df i hi rfl]
  · rfl

theorem capCells_getD_stage3 (df : DF) (i : Nat) (hi : i < df.rows.length) :
    capCells ((stage3 df).rows.getD i []) = capCells ((stage1 df).rows.getD i []) := by
  unfold stage3
  rw [capCells_getD_addCoords _ i (by rw [stage2_rows_length]; exact hi),
    capCells_getD_stage2 _ i hi]

/-! Claim C3 (corrected): the derived capacity total -/

/-- C3 counterexample, the claim as stated fails on an edge: a capacity-named column that is
also the leading "unnamed" column is dropped before the capacity scan, so a
table whose only capacity-like column is `"Unnamed: capacity"` produces no
derived total at all, although the claim promises one for every input table
with a capacity-like column. -/
theorem c3_capacity_total_counterexample :
    hasCapacity "Unnamed: capacity" = true
      ∧ (standardize_columns
          ⟨["Unnamed: capacity"], [[("Unnamed: capacity", Value.num 1)]]⟩).cols = []
      ∧ "Total capacity (ttpa)"
          ∉ (standardize_columns
              ⟨["Unnamed: capacity"], [[("Unnamed: capacity", Value.num 1)]]⟩).cols := by
  refine ⟨by decide, by decide, by decide⟩

/-- C3 amended: For every well-formed table that still has a
capacity-like column after name-trimming and the leading-unnamed-column
drop, standardization adds the derived `Total capacity (ttpa)` column, and
on each row its value is the min-count-1 sum of the numerically coerced
capacity-like cells of that (trimmed) row: missing exactly when all
contributing cells are missing, and otherwise the numeric sum of the
non-missing coerciona. -/
theorem c3_capacity_total_amended (df : DF) (hwf : WF df)
    (hcap : (stage1 df).cols.any hasCapacity = true)
    (i : Nat) (hi : i < df.rows.length) :
    "Total capacity (ttpa)" ∈ (standardize_columns df).cols
      ∧ getCell ((standardize_columns df).rows.getD i []) "Total capacity (ttpa)"
          = sumMin1 (capCells ((stage1 df).rows.getD i []))
      ∧ (sumMin1 (capCells ((stage1 df).rows.getD i [])) = Value.na
          ↔ (capCells ((stage1 df).rows.getD i [])).all Value.isNa = true)
      ∧ ((capCells ((stage1 df).rows.getD i [])).all Value.isNa = false
          → sumMin1 (capCells ((stage1 df).rows.getD i []))
              = Value.num (((capCells ((stage1 df).rows.getD i [])).filterMap
                  Value.num?).sum)) := by
  have hcap3 : (stage3 df).cols.any hasCapacity = true := by
    rw [any_capacity_stage3]
    exact hcap
  have hi3 : i < (stage3 df).rows.length := by
    rw [stage3_rows_length]
    exact hi
  have hwf3 : WF (stage3 df) := WF_stage3 hwf
  have hbridge : capCells ((stage3 df).rows.getD i [])
      = capCells ((stage1 df).rows.getD i []) := capCells_getD_stage3 df i hi
  refine ⟨?_, ?_, sumMin1_na_iff _, fun h => sumMin1_num _ h⟩
  · show "Total capacity (ttpa)" ∈ (addTotalCapacity (stage3 df)).cols
    unfold addTotalCapacity
    rw [if_pos hcap3, setCol_cols]
    split
    · assumption
    · simp
  · show getCell ((addTotalCapacity (stage3 df)).rows.getD i []) "Total capacity (ttpa)"
        = _
    unfold addTotalCapacity
    rw [if_pos hcap3]
    by_cases hmem : "Total capacity (ttpa)" ∈ (stage3 df).cols
    · rw [setCol_map_rows_of_mem _ _ _ hmem, getD_map_lt _ _ i [] [] hi3,
        getCell_map_replace_self _ _ _
          (by rw [hwf3 _ (getD_lt_mem _ i [] hi3)]; exact hmem),
        hbridge]
    · rw [setCol_map_rows_of_not_mem _ _ _ hmem, getD_map_lt _ _ i [] [] hi3,
        getCell_append_single_self _ _ _ ?hne, hbridge]
      case hne =>
        intro p hp heq
        have hpm : p.1 ∈ ((stage3 df).rows.getD i []).map Prod.fst :=
          List.mem_map.mpr ⟨p, hp, rfl⟩
        rw [hwf3 _ (getD_lt_mem _ i [] hi3)] at hpm
        exact hmem (heq ▸ hpm)

theorem c3_capacity_total_amended_witness :
    getCell ((standardize_columns
        ⟨["Capacity A", "Capacity B"],
         [[("Capacity A", Value.num 10), ("Capacity B", Value.na)],
          [("Capacity A", Value.na), ("Capacity B", Value.num 5)]]⟩).rows.getD 0 [])
        "Total capacity (ttpa)"
      = sumMin1 (capCells ((stage1
          ⟨["Capacity A", "Capacity B"],
           [[("Capacity A", Value.num 10), ("Capacity B", Value.na)],
            [("Capacity A", Value.na), ("Capacity B", Value.num 5)]]⟩).rows.getD 0 []))
      ∧ getCell ((standardize_columns
          ⟨["Capacity A", "Capacity B"],
           [[("Capacity A", Value.num 10), ("Capacity B", Value.na)],
            [("Capacity A", Value.na), ("Capacity B", Value.num 5)]]⟩).rows.getD 0 [])
          "Total capacity (ttpa)" = Value.num 10 := by
  constructor
  · exact (c3_capacity_total_amended _ (by decide) (by decide) 0 (by decide)).2.1
  · decide


/-! Claim C9 (corrected): latitude/longitude are numeric only when derived -/

theorem getColVals_std_ne_total (df : DF) (c : String)
    (hc : c ≠ "Total capacity (ttpa)") :
    getColVals (standardize_columns df) c = getColVals (stage3 df) c := by
  unfold standardize_columns addTotalCapacity
  split
  · by_cases hmem : "Total capacity (ttpa)" ∈ (stage3 df).cols
    · show ((setCol (stage3 df) _ _).rows.map _) = _
      rw [setCol_map_rows_of_mem _ _ _ hmem, List.map_map]
      apply List.map_congr_left
      intro r _
      exact getCell_map_replace_ne r _ _ c hc
    · show ((setCol (stage3 df) _ _).rows.map _) = _
      rw [setCol_map_rows_of_not_mem _ _ _ hmem, List.map_map]
      apply List.map_congr_left
      intro r _
      exact getCell_append_single_ne r _ c (fun heq => hc heq.symm)
  · rfl

theorem stage3_rows_derived (df : DF)
    (hco : "Coordinates" ∈ (stage2 df).cols)
    (hlat : "latitude" ∉ (stage2 df).cols)
    (hlon : "longitude" ∉ (stage2 df).cols) :
    (stage3 df).rows
      = (stage2 df).rows.map (fun r =>
          (r ++ [("latitude", (extract_lat_lon (getCell r "Coordinates")).1)])
            ++ [("longitude", (extract_lat_lon (getCell r "Coordinates")).2)]) := by
  unfold stage3 addCoords
  rw [if_pos ⟨hco, Or.inl hlat⟩]
  have hcols1 : (addLatStep (stage2 df) (stage2 df)).cols
      = (stage2 df).cols ++ ["latitude"] := by
    unfold addLatStep
    rw [if_pos hlat, setCol_cols, if_neg hlat]
  have hrows1 : (addLatStep (stage2 df) (stage2 df)).rows
      = (stage2 df).rows.map (fun r =>
          r ++ [("latitude", (extract_lat_lon (getCell r "Coordinates")).1)]) := by
    unfold addLatStep
    rw [if_pos hlat]
    unfold coordVals
    rw [List.map_map]
    rw [setCol_rows_not_mem _ _ _ hlat]
    exact zipWith_map_right_self' _ _ _
  have hlon1 : "longitude" ∉ (addLatStep (stage2 df) (stage2 df)).cols := by
    rw [hcols1]
    intro hmem
    rcases List.mem_append.mp hmem with h | h
    · exact hlon h
    · simp at h
  unfold addLonStep
  rw [if_pos hlon1, setCol_rows_not_mem _ _ _ hlon1, hrows1]
  unfold coordVals
  rw [List.map_map]
  exact zipWith_map_map _ _ _ _

theorem getColVals_derived (df : DF) (hwf : WF df)
    (hco : "Coordinates" ∈ (stage2 df).cols)
    (hlat : "latitude" ∉ (stage2 df).cols)
    (hlon : "longitude" ∉ (stage2 df).cols) :
    getColVals (standardize_columns df) "latitude"
        = (stage2 df).rows.map
            (fun r => (extract_lat_lon (getCell r "Coordinates")).1)
      ∧ getColVals (standardize_columns df) "longitude"
        = (stage2 df).rows.map
            (fun r => (extract_lat_lon (getCell r "Coordinates")).2) := by
  have hwf2 : WF (stage2 df) := WF_stage2 hwf
  constructor
  · rw [getColVals_std_ne_total df _ (by decide)]
    unfold getColVals
    rw [stage3_rows_derived df hco hlat hlon, List.map_map]
    apply List.map_congr_left
    intro r hr
    show getCell ((r ++ _) ++ _) "latitude" = _
    rw [getCell_append_single_ne _ _ _ (by simp),
      getCell_append_single_self _ _ _ ?hfst]
    case hfst =>
      intro p hp heq
      have hpm : p.1 ∈ r.map Prod.fst := List.mem_map.mpr ⟨p, hp, rfl⟩
      rw [hwf2 r hr] at hpm
      exact hlat (heq ▸ hpm)
  · rw [getColVals_std_ne_total df _ (by decide)]
    unfold getColVals
    rw [stage3_rows_derived df hco hlat hlon, List.map_map]
    apply List.map_congr_left
    intro r hr
    show getCell ((r ++ _) ++ _) "longitude" = _
    rw [getCell_append_single_self _ _ _ ?hfst]
    case hfst =>
      intro p hp heq
      rcases List.mem_append.mp hp with h | h
      · have hpm : p.1 ∈ r.map Prod.fst := List.mem_map.mpr ⟨p, h, rfl⟩
        rw [hwf2 r hr] at hpm
        exact hlon (heq ▸ hpm)
      · rw [List.mem_singleton] at h
        rw [h] at heq
        simp at heq

/-- C9 counterexample, the claim as stated is false: when `latitude` is produced by merely
renaming an existing `Latitude` column, its values are carried over
unchanged and can be non-numeric strings — nothing coerces them. -/
theorem c9_latlon_counterexample :
    getColVals (standardize_columns
        ⟨["Latitude"], [[("Latitude", Value.str "abc")]]⟩) "latitude"
      = [Value.str "abc"]
      ∧ (Value.str "abc").isNa = false
      ∧ (Value.str "abc").isNum = false := by
  refine ⟨by decide, by decide, by decide⟩

/-- C9 amended: When the `latitude`/`longitude` columns are derived
from the `Coordinates` column (no latitude/longitude column present after
the renames, `Coordinates` present), every value in them is a float or
explicitly missing; a column obtained by renaming keeps its original
values unchanged, which may be non-numeric. -/
theorem c9_latlon_numeric_when_derived (df : DF) (hwf : WF df)
    (hco : "Coordinates" ∈ (stage2 df).cols)
    (hlat : "latitude" ∉ (stage2 df).cols)
    (hlon : "longitude" ∉ (stage2 df).cols) :
    (∀ v ∈ getColVals (standardize_columns df) "latitude",
        v = Value.na ∨ ∃ q, v = Value.num q)
      ∧ (∀ v ∈ getColVals (standardize_columns df) "longitude",
          v = Value.na ∨ ∃ q, v = Value.num q) := by
  obtain ⟨h1, h2⟩ := getColVals_derived df hwf hco hlat hlon
  constructor
  · intro v hv
    rw [h1] at hv
    obtain ⟨r, _, rfl⟩ := List.mem_map.mp hv
    exact extract_fst_shape _
  · intro v hv
    rw [h2] at hv
    obtain ⟨r, _, rfl⟩ := List.mem_map.mp hv
    exact extract_snd_shape _

theorem c9_latlon_numeric_witness :
    Value.num 1 = Value.na ∨ ∃ q, Value.num 1 = Value.num q := by
  exact (c9_latlon_numeric_when_derived
      ⟨["Coordinates"], [[("Coordinates", Value.str "1, 2")]]⟩
      (by decide) (by decide) (by decide) (by decide)).1
    (Value.num 1) (by decide)


/-! Column-membership bookkeeping for a standardized table (claim C2) -/

theorem mem_dropUnnamedFirst_cols {df : DF} {c : String}
    (h : c ∈ (dropUnnamedFirst df).cols) : c ∈ df.cols := by
  unfold dropUnnamedFirst at h
  split at h
  · exact h
  · split at h
    · exact List.mem_of_mem_filter h
    · exact h

theorem mem_renameCol_cols {df : DF} {o n c : String}
    (h : c ∈ (renameCol df o n).cols) : c ∈ df.cols ∨ c = n := by
  obtain ⟨c0, hc0, heq⟩ := List.mem_map.mp h
  by_cases h0 : c0 = o
  · rw [if_pos h0] at heq
    exact Or.inr heq.symm
  · rw [if_neg h0] at heq
    exact Or.inl (heq ▸ hc0)

theorem mem_renameCol_iff {df : DF} {o n c : String} (h1 : c ≠ o) (h2 : c ≠ n) :
    c ∈ (renameCol df o n).cols ↔ c ∈ df.cols := by
  constructor
  · intro h
    rcases mem_renameCol_cols h with h | h
    · exact h
    · exact absurd h h2
  · intro h
    exact List.mem_map.mpr ⟨c, h, by rw [if_neg h1]⟩

theorem addLatStep_cols (df0 df : DF) :
    (addLatStep df0 df).cols = df.cols
      ∨ (addLatStep df0 df).cols = df.cols ++ ["latitude"] := by
  unfold addLatStep
  split
  · rename_i h
    right
    rw [setCol_cols, if_neg h]
  · exact Or.inl rfl

theorem addLonStep_cols (df0 df : DF) :
    (addLonStep df0 df).cols = df.cols
      ∨ (addLonStep df0 df).cols = df.cols ++ ["longitude"] := by
  unfold addLonStep
  split
  · rename_i h
    right
    rw [setCol_cols, if_neg h]
  · exact Or.inl rfl

theorem addTotalCapacity_cols (df : DF) :
    (addTotalCapacity df).cols = df.cols
      ∨ (addTotalCapacity df).cols = df.cols ++ ["Total capacity (ttpa)"] := by
  unfold addTotalCapacity
  split
  · rw [setCol_cols]
    split
    · exact Or.inl rfl
    · exact Or.inr rfl
  · exact Or.inl rfl

theorem imp_mem_append_single {a b x : String} {l : List String} (hax : a ≠ x)
    (h : a ∈ l → b ∈ l) : a ∈ l ++ [x] → b ∈ l ++ [x] := by
  intro hm
  rcases List.mem_append.mp hm with h1 | h1
  · exact List.mem_append_left _ (h h1)
  · rw [List.mem_singleton] at h1
    exact absurd h1 hax

theorem latInv_renameLat (df : DF) :
    "Latitude" ∈ (renameLat df).cols → "latitude" ∈ (renameLat df).cols := by
  unfold renameLat
  split
  · intro hmem
    exfalso
    obtain ⟨c0, _, heq⟩ := List.mem_map.mp hmem
    by_cases h0 : c0 = "Latitude"
    · rw [if_pos h0] at heq
      exact absurd heq (by decide)
    · rw [if_neg h0] at heq
      exact h0 heq
  · rename_i h
    intro hL
    by_cases hl : "latitude" ∈ df.cols
    · exact hl
    · exact absurd ⟨hL, hl⟩ h

theorem latInv_renameLon (df : DF)
    (h : "Latitude" ∈ df.cols → "latitude" ∈ df.cols) :
    "Latitude" ∈ (renameLon df).cols → "latitude" ∈ (renameLon df).cols := by
  unfold renameLon
  split
  · intro hmem
    rw [mem_renameCol_iff (by decide) (by decide)] at hmem
    rw [mem_renameCol_iff (by decide) (by decide)]
    exact h hmem
  · exact h

theorem lonInv_renameLon (df : DF) :
    "Longitude" ∈ (renameLon df).cols → "longitude" ∈ (renameLon df).cols := by
  unfold renameLon
  split
  · intro hmem
    exfalso
    obtain ⟨c0, _, heq⟩ := List.mem_map.mp hmem
    by_cases h0 : c0 = "Longitude"
    · rw [if_pos h0] at heq
      exact absurd heq (by decide)
    · rw [if_neg h0] at heq
      exact h0 heq
  · rename_i h
    intro hL
    by_cases hl : "longitude" ∈ df.cols
    · exact hl
    · exact absurd ⟨hL, hl⟩ h

theorem latInv_stage2 (df : DF) :
    "Latitude" ∈ (stage2 df).cols → "latitude" ∈ (stage2 df).cols := by
  unfold stage2
  exact latInv_renameLon _ (latInv_renameLat _)

theorem lonInv_stage2 (df : DF) :
    "Longitude" ∈ (stage2 df).cols → "longitude" ∈ (stage2 df).cols :=
  lonInv_renameLon _

theorem lat_mem_addLatStep (df0 df : DF) : "latitude" ∈ (addLatStep df0 df).cols := by
  unfold addLatStep
  split
  · rename_i h
    rw [setCol_cols, if_neg h]
    exact List.mem_append_right _ (by simp)
  · rename_i h
    exact Decidable.not_not.mp h

theorem lon_mem_addLonStep (df0 df : DF) : "longitude" ∈ (addLonStep df0 df).cols := by
  unfold addLonStep
  split
  · rename_i h
    rw [setCol_cols, if_neg h]
    exact List.mem_append_right _ (by simp)
  · rename_i h
    exact Decidable.not_not.mp h

theorem imp_transport_cols {a b : String} {X Y : DF} {x : String}
    (hax : a ≠ x)
    (hcols : Y.cols = X.cols ∨ Y.cols = X.cols ++ [x])
    (h : a ∈ X.cols → b ∈ X.cols) : a ∈ Y.cols → b ∈ Y.cols := by
  rcases hcols with hc | hc
  · rw [hc]
    exact h
  · rw [hc]
    exact imp_mem_append_single hax h

theorem latInv_stage3 (df : DF) :
    "Latitude" ∈ (stage3 df).cols → "latitude" ∈ (stage3 df).cols := by
  unfold stage3 addCoords
  split
  · exact imp_transport_cols (by decide)
      (addLonStep_cols _ _)
      (imp_transport_cols (by decide) (addLatStep_cols _ _) (latInv_stage2 df))
  · exact latInv_stage2 df

theorem lonInv_stage3 (df : DF) :
    "Longitude" ∈ (stage3 df).cols → "longitude" ∈ (stage3 df).cols := by
  unfold stage3 addCoords
  split
  · exact imp_transport_cols (by decide)
      (addLonStep_cols _ _)
      (imp_transport_cols (by decide) (addLatStep_cols _ _) (lonInv_stage2 df))
  · exact lonInv_stage2 df

theorem latInv_std (df : DF) :
    "Latitude" ∈ (standardize_columns df).cols →
      "latitude" ∈ (standardize_columns df).cols := by
  unfold standardize_columns
  exact imp_transport_cols (by decide) (addTotalCapacity_cols _) (latInv_stage3 df)

theorem lonInv_std (df : DF) :
    "Longitude" ∈ (standardize_columns df).cols →
      "longitude" ∈ (standardize_columns df).cols := by
  unfold standardize_columns
  exact imp_transport_cols (by decide) (addTotalCapacity_cols _) (lonInv_stage3 df)

theorem coordsInv_stage3 (df : DF) :
    "Coordinates" ∈ (stage3 df).cols →
      "latitude" ∈ (stage3 df).cols ∧ "longitude" ∈ (stage3 df).cols := by
  unfold stage3 addCoords
  split
  · intro _
    constructor
    · rcases addLonStep_cols (stage2 df) (addLatStep (stage2 df) (stage2 df)) with hc | hc
      · rw [hc]
        exact lat_mem_addLatStep _ _
      · rw [hc]
        exact List.mem_append_left _ (lat_mem_addLatStep _ _)
    · exact lon_mem_addLonStep _ _
  · rename_i hcond
    intro hco
    have hlat : "latitude" ∈ (stage2 df).cols := by
      by_cases h : "latitude" ∈ (stage2 df).cols
      · exact h
      · exact absurd ⟨hco, Or.inl h⟩ hcond
    have hlon : "longitude" ∈ (stage2 df).cols := by
      by_cases h : "longitude" ∈ (stage2 df).cols
      · exact h
      · exact absurd ⟨hco, Or.inr h⟩ hcond
    exact ⟨hlat, hlon⟩

theorem mem_of_mem_append_ne {a x : String} {l : List String}
    (hax : a ≠ x) (h : a ∈ l ++ [x]) : a ∈ l := by
  rcases List.mem_append.mp h with h1 | h1
  · exact h1
  · rw [List.mem_singleton] at h1
    exact absurd h1 hax

theorem coordsInv_std (df : DF) :
    "Coordinates" ∈ (standardize_columns df).cols →
      "latitude" ∈ (standardize_columns df).cols
        ∧ "longitude" ∈ (standardize_columns df).cols := by
  unfold standardize_columns
  intro hco
  have hco3 : "Coordinates" ∈ (stage3 df).cols := by
    rcases addTotalCapacity_cols (stage3 df) with hc | hc
    · rwa [hc] at hco
    · rw [hc] at hco
      exact mem_of_mem_append_ne (by decide) hco
  obtain ⟨hlat, hlon⟩ := coordsInv_stage3 df hco3
  rcases addTotalCapacity_cols (stage3 df) with hc | hc
  · rw [hc]
    exact ⟨hlat, hlon⟩
  · rw [hc]
    exact ⟨List.mem_append_left _ hlat, List.mem_append_left _ hlon⟩

/-! Every column name of a standardized table is strip-fixed -/

theorem std_cols_stripped (df : DF) :
    ∀ c ∈ (standardize_columns df).cols, pyStrip c = c := by
  have h0 : ∀ c ∈ (stripNames df).cols, pyStrip c = c := by
    intro c hc
    obtain ⟨c0, _, rfl⟩ := List.mem_map.mp hc
    exact pyStrip_idem c0
  have h1 : ∀ c ∈ (stage1 df).cols, pyStrip c = c :=
    fun c hc => h0 c (mem_dropUnnamedFirst_cols hc)
  have h2 : ∀ c ∈ (stage2 df).cols, pyStrip c = c := by
    intro c hc
    unfold stage2 renameLon at hc
    split at hc
    · rcases mem_renameCol_cols hc with h | h
      · unfold renameLat at h
        split at h
        · rcases mem_renameCol_cols h with h | h
          · exact h1 c h
          · rw [h]
            decide
        · exact h1 c h
      · rw [h]
        decide
    · unfold renameLat at hc
      split at hc
      · rcases mem_renameCol_cols hc with h | h
        · exact h1 c h
        · rw [h]
          decide
      · exact h1 c hc
  have h3 : ∀ c ∈ (stage3 df).cols, pyStrip c = c := by
    intro c hc
    unfold stage3 addCoords at hc
    split at hc
    · rcases addLonStep_cols (stage2 df) (addLatStep (stage2 df) (stage2 df)) with hcc | hcc
      · rw [hcc] at hc
        rcases addLatStep_cols (stage2 df) (stage2 df) with hcl | hcl
        · rw [hcl] at hc
          exact h2 c hc
        · rw [hcl] at hc
          rcases List.mem_append.mp hc with h | h
          · exact h2 c h
          · rw [List.mem_singleton] at h
            rw [h]
            decide
      · rw [hcc] at hc
        rcases List.mem_append.mp hc with h | h
        · rcases addLatStep_cols (stage2 df) (stage2 df) with hcl | hcl
          · rw [hcl] at h
            exact h2 c h
          · rw [hcl] at h
            rcases List.mem_append.mp h with h | h
            · exact h2 c h
            · rw [List.mem_singleton] at h
              rw [h]
              decide
        · rw [List.mem_singleton] at h
          rw [h]
          decide
    · exact h2 c hc
  intro c hc
  rcases addTotalCapacity_cols (stage3 df) with hcc | hcc
  · rw [show (standardize_columns df).cols = (addTotalCapacity (stage3 df)).cols from rfl,
      hcc] at hc
    exact h3 c hc
  · rw [show (standardize_columns df).cols = (addTotalCapacity (stage3 df)).cols from rfl,
      hcc] at hc
    rcases List.mem_append.mp hc with h | h
    · exact h3 c h
    · rw [List.mem_singleton] at h
      rw [h]
      decide


/-! Claim C2 (corrected): standardization is not idempotent in general -/

/-- C2 counterexample, the claim as stated is false: the derived total column's own name
contains "capacity", so a second standardization adds the previous total
back into the sum (here `1` becomes `2`), and a second leading "unnamed"
column is dropped by the second pass. -/
theorem c2_idempotence_counterexample :
    standardize_columns (standardize_columns
        ⟨["Unnamed: 0", "Unnamed: 1", "Capacity A"],
         [[("Unnamed: 0", Value.num 0), ("Unnamed: 1", Value.num 0),
           ("Capacity A", Value.num 1)]]⟩)
      ≠ standardize_columns
          ⟨["Unnamed: 0", "Unnamed: 1", "Capacity A"],
           [[("Unnamed: 0", Value.num 0), ("Unnamed: 1", Value.num 0),
             ("Capacity A", Value.num 1)]]⟩ := by
  decide

/-- C2 amended: Standardization is idempotent on every well-formed
table whose standardized output has no capacity-like column and whose
output's first column name is neither empty nor an "unnamed" marker; in
general a second application can drop a further leading unnamed column and
recomputes the derived total with the previous total included. -/
theorem c2_standardize_idempotent_amended (df : DF) (hwf : WF df)
    (hcap : (standardize_columns df).cols.any hasCapacity = false)
    (hun : isUnnamedFirst (standardize_columns df) = false) :
    standardize_columns (standardize_columns df) = standardize_columns df := by
  have hwfd : WF (standardize_columns df) := WF_standardize hwf
  have hstripped := std_cols_stripped df
  have h1 : stripNames (standardize_columns df) = standardize_columns df := by
    have hc : (standardize_columns df).cols.map pyStrip = (standardize_columns df).cols :=
      map_self hstripped
    have hr : (standardize_columns df).rows.map
          (fun r => r.map (fun p => (pyStrip p.1, p.2)))
        = (standardize_columns df).rows := by
      apply map_self
      intro r hr
      apply map_self
      intro p hp
      have hfst : p.1 ∈ (standardize_columns df).cols := by
        rw [← hwfd r hr]
        exact List.mem_map.mpr ⟨p, hp, rfl⟩
      rw [hstripped p.1 hfst]
    show DF.mk _ _ = _
    rw [hc, hr]
  have h2 : dropUnnamedFirst (standardize_columns df) = standardize_columns df := by
    unfold dropUnnamedFirst
    split
    · rfl
    · rename_i c cs hceq
      have hu : isUnnamed c = false := by
        have := hun
        rw [show isUnnamedFirst (standardize_columns df) = isUnnamed c from by
          unfold isUnnamedFirst
          rw [hceq]] at this
        exact this
      rw [if_neg (by simp [hu])]
  have h3 : renameLat (standardize_columns df) = standardize_columns df := by
    unfold renameLat
    rw [if_neg (fun h => h.2 (latInv_std df h.1))]
  have h4 : renameLon (standardize_columns df) = standardize_columns df := by
    unfold renameLon
    rw [if_neg (fun h => h.2 (lonInv_std df h.1))]
  have h5 : addCoords (standardize_columns df) = standardize_columns df := by
    unfold addCoords
    rw [if_neg ?hno]
    case hno =>
      intro h
      obtain ⟨hlat, hlon⟩ := coordsInv_std df h.1
      rcases h.2 with hh | hh
      · exact hh hlat
      · exact hh hlon
  have h6 : addTotalCapacity (standardize_columns df) = standardize_columns df := by
    unfold addTotalCapacity
    rw [if_neg (by simp [hcap])]
  show addTotalCapacity (addCoords (renameLon (renameLat
      (dropUnnamedFirst (stripNames (standardize_columns df))))))
    = standardize_columns df
  rw [h1, h2, h3, h4, h5, h6]

theorem c2_standardize_idempotent_witness :
    standardize_columns (standardize_columns ⟨["A"], [[("A", Value.num 1)]]⟩)
      = standardize_columns ⟨["A"], [[("A", Value.num 1)]]⟩ := by
  exact c2_standardize_idempotent_amended _ (by decide) (by decide) (by decide)

end SteelDash
